import Mathlib

/-- Animation part of `AccordionOptions` (`animation.duration`,
`animation.easing`). -/
structure AnimationOptions where
  duration : Nat
  easing : String
deriving Repr, DecidableEq

/-- Selector part of `AccordionOptions`.  (`section` is a Lean keyword, so the
field is `sectionSel`, and similarly for the others.) -/
structure SelectorOptions where
  sectionSel : String
  headerSel : String
  triggerSel : String
  contentSel : String
deriving Repr, DecidableEq

/-- The `AccordionOptions` type of the source. -/
structure AccordionOptions where
  selector : SelectorOptions
  animation : AnimationOptions
deriving Repr, DecidableEq

/-- Caller-supplied options: `Partial<AccordionOptions>`.  A missing top-level
field is `none`; the spread `{ ...defaults.x, ...options?.x }` then keeps the
default. -/
structure AccordionOptionsOverride where
  selector : Option SelectorOptions
  animation : Option AnimationOptions
deriving Repr, DecidableEq

/-- The `this.defaults` literal of the constructor. -/
def defaultOptions : AccordionOptions :=
  { selector :=
      { sectionSel := ":has(> [data-accordion-header])"
        headerSel := "[data-accordion-header]"
        triggerSel := "[data-accordion-trigger]"
        contentSel := "[data-accordion-header] + *" }
    animation := { duration := 300, easing := "ease" } }

/-- A trigger element.  Attribute-reflecting fields are `Option String`
(`none` = attribute absent / property `null`); `id` is the DOM `id` property
(`""` when absent, as in the DOM). -/
structure Trigger where
  id : String
  ariaControls : Option String
  ariaExpanded : Option String
  ariaDisabled : Option String
  disabledAttr : Bool
  dataName : Option String
  tabIndex : Int
  pointerEventsNone : Bool
  clickListener : Bool
  keydownListener : Bool
deriving Repr, DecidableEq

/-- A content element.  `hidden = none` means the `hidden` attribute is
absent; the code only ever sets it to `"until-found"`.  `blockSize` is the
measured computed block-size. -/
structure Content where
  id : String
  ariaLabelledby : Option String
  role : Option String
  hidden : Option String
  beforematchListener : Bool
  blockSize : Nat
deriving Repr, DecidableEq

/-- A section element: measured block-size plus the inline style properties
the code touches (`overflow`, `block-size`). -/
structure SectionEl where
  blockSize : Nat
  overflow : Option String
  inlineBlockSize : Option String
deriving Repr, DecidableEq

/-- A header element (only its measured block-size is read). -/
structure HeaderEl where
  blockSize : Nat
deriving Repr, DecidableEq

/-- An in-flight animation handle as created by `section.animate` in
`toggle`, together with the values captured by its `finish` closure
(`index`, `content`, `open`, `section`). -/
structure AnimHandle where
  gen : Nat
  idx : Nat
  contentIdx : Nat
  opening : Bool
  fromSize : Nat
  toSize : Nat
  duration : Nat
  easing : String
deriving Repr, DecidableEq

/-- State of one (initialized) accordion instance together with the host
facilities it uses: the element collections (index-aligned, in document
order), the `animations` slot array, the set of cancelled animation
generations (a cancelled animation never fires `finish`), the queue of
pending `requestAnimationFrame` callbacks (trigger index, target expanded
value), and a fresh-generation counter for `animate`. -/
structure AccordionState where
  settings : AccordionOptions
  sections : List SectionEl
  headers : List HeaderEl
  triggers : List Trigger
  contents : List Content
  animations : List (Option AnimHandle)
  canceledGens : List Nat
  pendingRaf : List (Nat × Bool)
  nextGen : Nat
  rootInitialized : Bool
deriving Repr, DecidableEq

/-- JavaScript `String(b)` / `b.toString()` for a boolean. -/
def boolStr (b : Bool) : String := if b then "true" else "false"

/-- Index of the first element satisfying `p`, in list (= document) order.
Models `querySelector`, `getElementById` and `indexOf` lookups. -/
def firstIdxWhere (p : α → Prop) [DecidablePred p] : List α → Option Nat
  | [] => none
  | x :: xs => if p x then some 0 else (firstIdxWhere p xs).map (· + 1)

/-- Source `isFocusable`: `element.ariaDisabled !== 'true' &&
!element.hasAttribute('disabled')`. -/
def isFocusable (tr : Trigger) : Bool :=
  decide (tr.ariaDisabled ≠ some "true") && !tr.disabledAttr

/-- The focusable-filtered trigger list
(`this.triggerElements.filter(this.isFocusable)`), as indices into
`triggers`. -/
def focusableIdxs (ts : List Trigger) : List Nat :=
  (List.range ts.length).filter fun i =>
    match ts[i]? with
    | some tr => isFocusable tr
    | none => false

/-- JavaScript `%` on integers; `none` models `NaN` (remainder by zero).
JavaScript `%` truncates toward zero, which is `Int.tmod`; the JS result
`-0` behaves as index `0`, which `tmod` also gives. -/
def jsRem (a b : Int) : Option Int :=
  if b = 0 then none else some (a.tmod b)

/-- The `document.querySelector('[aria-expanded="true"][data-accordion-name="..."]')`
of `toggle`, over the modelled document (this instance's triggers in document
order). -/
def querySelectorExpandedName (ts : List Trigger) (n : String) : Option Nat :=
  firstIdxWhere (fun tr => tr.ariaExpanded = some "true" ∧ tr.dataName = some n) ts

/-- The new animation handle built by `section.animate` in `toggle`:
keyframes `blockSize: [size, header + (open ? content : 0)]`, duration
`!match ? settings.animation.duration : 0`, configured easing. -/
def mkHandle (s : AccordionState) (t ci : Nat) (o m : Bool) (sect : SectionEl)
    (content : Content) (hd : HeaderEl) : AnimHandle :=
  { gen := s.nextGen, idx := t, contentIdx := ci, opening := o
    fromSize := sect.blockSize
    toSize := hd.blockSize + (if o then content.blockSize else 0)
    duration := if !m then s.settings.animation.duration else 0
    easing := s.settings.animation.easing }

/-- The combined effect of toggle's lines 101-129 (see `toggleCore`), given
the values of the element lookups. -/
def coreResult (s : AccordionState) (t : Nat) (o m : Bool) (sect : SectionEl)
    (ci : Nat) (content : Content) (hd : HeaderEl) : AccordionState :=
  { s with
    pendingRaf := s.pendingRaf ++ [(t, o)]
    sections := s.sections.set t { sect with overflow := some "clip" }
    canceledGens :=
      match s.animations[t]? with
      | some (some a) => a.gen :: s.canceledGens
      | _ => s.canceledGens
    contents := s.contents.set ci { content with hidden := none }
    animations := s.animations.set t (some (mkHandle s t ci o m sect content hd))
    nextGen := s.nextGen + 1 }

/-- Lines 101-129 of `toggle` (everything after the group-exclusion step):
capture the section's current block-size, queue the `aria-expanded` flip on
the next animation frame, set `overflow: clip` on the section, cancel any
existing animation at this index, unhide the content found by
`getElementById(trigger.getAttribute('aria-controls')!)`, start the new
animation and store its handle, registering the `finish` side effects
(modelled in `deliverFinish` via the captured fields of `AnimHandle`). -/
def toggleCore (s : AccordionState) (t : Nat) (o m : Bool) : Option AccordionState := do
  let trig ← s.triggers[t]?
  -- const section = trigger.closest(...)! ; sections are index-aligned with triggers
  let sect ← s.sections[t]?
  -- const size = getComputedStyle(section)['block-size']  (captured in `sect.blockSize`)
  -- window.requestAnimationFrame(() => { trigger.ariaExpanded = String(open); });
  let s1 := { s with pendingRaf := s.pendingRaf ++ [(t, o)] }
  -- section.style.setProperty('overflow', 'clip');
  let s2 := { s1 with sections := s1.sections.set t { sect with overflow := some "clip" } }
  -- const index = this.triggerElements.indexOf(trigger);  (elements are their indices, so = t)
  -- let animation = this.animations[index]; if (animation) { animation.cancel(); }
  let s3 :=
    match s2.animations[t]? with
    | some (some a) => { s2 with canceledGens := a.gen :: s2.canceledGens }
    | _ => s2
  -- const content = document.getElementById(trigger.getAttribute('aria-controls')!)!;
  let cid ← trig.ariaControls
  let ci ← firstIdxWhere (fun c => c.id = cid) s3.contents
  let content ← s3.contents[ci]?
  -- content.removeAttribute('hidden');
  let s4 := { s3 with contents := s3.contents.set ci { content with hidden := none } }
  -- animation = this.animations[index] = section.animate({ blockSize: [size, header + (open ? content : 0)] }, ...)
  let hd ← s4.headers[t]?
  let handle : AnimHandle :=
    { gen := s4.nextGen, idx := t, contentIdx := ci, opening := o
      fromSize := sect.blockSize
      toSize := hd.blockSize + (if o then content.blockSize else 0)
      duration := if !m then s4.settings.animation.duration else 0
      easing := s4.settings.animation.easing }
  pure { s4 with animations := s4.animations.set t (some handle), nextGen := s4.nextGen + 1 }

/-- Lines 94-100 of `toggle` (group exclusion): if the trigger has a truthy
`data-accordion-name` and another currently-expanded trigger with the same
name exists in the document and is not this trigger and `open` is requested,
call `this.close(current)` (passed in as `closeFn`). -/
def groupStep (closeFn : AccordionState → Nat → Option AccordionState)
    (s : AccordionState) (t : Nat) (o : Bool) (tr : Trigger) : Option AccordionState :=
  match tr.dataName with
  | some n =>
    if n = "" then some s
    else
      match querySelectorExpandedName s.triggers n with
      | some c => if o ∧ c ≠ t then closeFn s c else some s
      | none => some s
  | none => some s

/-- The body of `toggle(trigger, open, match)`, parameterised by the function
used for the recursive `this.close(current)` call.  Line 91: the no-op guard
`open.toString() === trigger.ariaExpanded`. -/
def toggleBody (closeFn : AccordionState → Nat → Option AccordionState)
    (s : AccordionState) (t : Nat) (o m : Bool) : Option AccordionState := do
  let trig ← s.triggers[t]?
  if some (boolStr o) = trig.ariaExpanded then pure s
  else do
    let s1 ← groupStep closeFn s t o trig
    toggleCore s1 t o m

/-- The `close` method as invoked from inside `toggle`'s group-exclusion
branch: membership guard, then `toggle(trigger, false)`.  The inner toggle is
called with `open = false`, so its own group branch never recurses; the
constant close function is therefore never reached (see
`toggleBody_closeFn_irrel`). -/
def closeNR (s : AccordionState) (c : Nat) : Option AccordionState :=
  if c < s.triggers.length then toggleBody (fun s' _ => some s') s c false false
  else some s

/-- Source `toggle(trigger, open, match = false)`.  `t` is the trigger's index;
the recursive `this.close(current)` is `closeNR`. -/
def toggle (s : AccordionState) (t : Nat) (o m : Bool) : Option AccordionState :=
  toggleBody closeNR s t o m

/-- Public `open(trigger)`: no-op on non-member triggers, else
`toggle(trigger, true)`. -/
def openT (s : AccordionState) (t : Nat) : Option AccordionState :=
  if t < s.triggers.length then toggle s t true false else some s

/-- Public `close(trigger)`: no-op on non-member triggers, else
`toggle(trigger, false)`. -/
def closeT (s : AccordionState) (t : Nat) : Option AccordionState :=
  if t < s.triggers.length then toggle s t false false else some s

/-- Source `handleTriggerClick`: `toggle(trigger, trigger.ariaExpanded === 'false')`
on the listener's trigger (`event.currentTarget`).  `preventDefault` /
`stopPropagation` have no effect on the modelled state. -/
def handleTriggerClick (s : AccordionState) (t : Nat) : Option AccordionState := do
  let trig ← s.triggers[t]?
  toggle s t (decide (trig.ariaExpanded = some "false")) false

/-- Source `handleContentBeforeMatch`: look the owning trigger up by
`[aria-controls="content.id"]` over the document, no-op if it is already
expanded, else `toggle(trigger, true, true)`.  A failed lookup is a thrown
`TypeError` (`none`). -/
def handleContentBeforeMatch (s : AccordionState) (cI : Nat) : Option AccordionState := do
  let content ← s.contents[cI]?
  let t ← firstIdxWhere (fun tr => tr.ariaControls = some content.id) s.triggers
  let trig ← s.triggers[t]?
  if trig.ariaExpanded = some "true" then pure s
  else toggle s t true true

/-- An element as seen by `document.activeElement`: one of this instance's
triggers, or any other element of the page. -/
inductive DocElem where
  | trig (i : Nat)
  | foreign
deriving Repr, DecidableEq

/-- Result of the keydown handler.  `passThrough`: key not intercepted;
`noFocus`: `document.activeElement` is absent (or not an `HTMLElement`);
`activate el`: `current.click()` was called on `el`; `focusTo j`:
`focusables[newIndex].focus()` ran, moving focus to trigger index `j`;
`jsError`: `focusables[newIndex]` was `undefined` (index `NaN` or out of
range), so `.focus()` threw a `TypeError`. -/
inductive KeyResult where
  | passThrough
  | noFocus
  | activate (el : DocElem)
  | focusTo (j : Nat)
  | jsError
deriving Repr, DecidableEq

/-- Source `handleTriggerKeyDown`.  Keys outside the intercepted list pass through;
`preventDefault` / `stopPropagation` have no modelled effect; `active` is
`document.activeElement` (`none` when null or not an `HTMLElement`). -/
def handleTriggerKeyDown (s : AccordionState) (key : String) (active : Option DocElem) :
    KeyResult :=
  if key ∉ (["Enter", " ", "End", "Home", "ArrowUp", "ArrowDown"] : List String) then
    .passThrough
  else
    let focusables := focusableIdxs s.triggers
    match active with
    | none => .noFocus
    | some cur =>
      -- const currentIndex = focusables.indexOf(current);  (-1 when absent)
      let currentIndex : Int :=
        match cur with
        | .trig i =>
          match firstIdxWhere (fun j => j = i) focusables with
          | some k => (k : Int)
          | none => -1
        | .foreign => -1
      let length : Int := (focusables.length : Int)
      if key = "Enter" ∨ key = " " then .activate cur
      else
        let newIndex : Option Int :=
          if key = "End" then some (length - 1)
          else if key = "Home" then some 0
          else if key = "ArrowUp" then jsRem (currentIndex - 1 + length) length
          else jsRem (currentIndex + 1) length
        match newIndex with
        | none => .jsError
        | some n =>
          if 0 ≤ n then
            match focusables[n.toNat]? with
            | some j => .focusTo j
            | none => .jsError
          else .jsError

/-- One `requestAnimationFrame` callback `() => { trigger.ariaExpanded =
String(open); }`. -/
def applyFlip (ts : List Trigger) (p : Nat × Bool) : List Trigger :=
  match ts[p.1]? with
  | some tr => ts.set p.1 { tr with ariaExpanded := some (boolStr p.2) }
  | none => ts

/-- The next paint: all queued `requestAnimationFrame` callbacks run in FIFO
order. -/
def flushRaf (s : AccordionState) : AccordionState :=
  { s with triggers := s.pendingRaf.foldl applyFlip s.triggers, pendingRaf := [] }

/-- First stored handle with generation `g` in the `animations` slots. -/
def findHandle : List (Option AnimHandle) → Nat → Option AnimHandle
  | [], _ => none
  | some h :: rest, g => if h.gen = g then some h else findHandle rest g
  | none :: rest, g => findHandle rest g

/-- The browser delivering the `finish` event of animation generation `g`.
A cancelled animation never fires `finish`.  Otherwise the registered
listener runs with its captured `index`, `open`, `content` and `section`:
clear `this.animations[index]`, set `hidden="until-found"` on the content if
the transition closed the panel, and remove the temporary `block-size` and
`overflow` style properties of the section. -/
def deliverFinish (s : AccordionState) (g : Nat) : AccordionState :=
  if g ∈ s.canceledGens then s
  else
    match findHandle s.animations g with
    | none => s
    | some h =>
      let s1 := { s with animations := s.animations.set h.idx none }
      let s2 :=
        if h.opening then s1
        else
          match s1.contents[h.contentIdx]? with
          | some c =>
            { s1 with
              contents :=
                s1.contents.set h.contentIdx { c with hidden := some "until-found" } }
          | none => s1
      match s2.sections[h.idx]? with
      | some sec =>
        { s2 with
          sections :=
            s2.sections.set h.idx { sec with inlineBlockSize := none, overflow := none } }
      | none => s2

/-- Wiring of one trigger in `initialize` (the `triggerElements.forEach`
body at index `i`).  `rnd i` models the `Math.random().toString(36).slice(-8)`
suffix drawn in iteration `i`. -/
def wireTrigger (rnd : Nat → String) (s : AccordionState) (i : Nat) :
    Option AccordionState := do
  let trig ← s.triggers[i]?
  let content ← s.contents[i]?
  let id := rnd i
  -- trigger.setAttribute('aria-controls', (this.contentElements[i].id ||= `accordion-content-${id}`));
  let cid := if content.id = "" then "accordion-content-" ++ id else content.id
  let s := { s with contents := s.contents.set i { content with id := cid } }
  let trig := { trig with ariaControls := some cid }
  -- if (!trigger.ariaExpanded) { trigger.ariaExpanded = 'false'; }
  let trig :=
    if trig.ariaExpanded = none ∨ trig.ariaExpanded = some "" then
      { trig with ariaExpanded := some "false" }
    else trig
  -- trigger.id ||= `accordion-trigger-${id}`;
  let trig := if trig.id = "" then { trig with id := "accordion-trigger-" ++ id } else trig
  -- trigger.tabIndex = this.isFocusable(trigger) ? 0 : -1;
  let trig := { trig with tabIndex := if isFocusable trig then 0 else -1 }
  -- if (!this.isFocusable(trigger)) { trigger.style.setProperty('pointer-events', 'none'); }
  let trig := if !isFocusable trig then { trig with pointerEventsNone := true } else trig
  -- addEventListener('click', ...); addEventListener('keydown', ...);
  let trig := { trig with clickListener := true, keydownListener := true }
  pure { s with triggers := s.triggers.set i trig }

/-- Wiring of one content element in `initialize` (the
`contentElements.forEach` body at index `i`). -/
def wireContent (s : AccordionState) (i : Nat) : Option AccordionState := do
  let content ← s.contents[i]?
  let trig ← s.triggers[i]?
  -- content.setAttribute('aria-labelledby', `${content.getAttribute('aria-labelledby') || ''} ${this.triggerElements[i].id}`.trim());
  let lb := (((content.ariaLabelledby.getD "") ++ " ") ++ trig.id).trim
  let content :=
    { content with
      ariaLabelledby := some lb
      role := some "region"
      beforematchListener := true }
  pure { s with contents := s.contents.set i content }

/-- The private `initialize` method: bail out if any of the four discovered
collections is empty; otherwise wire every trigger and every content and
finally set the `data-accordion-initialized` marker on the root. -/
def initAccordion (rnd : Nat → String) (s : AccordionState) : Option AccordionState :=
  if s.sections.length = 0 ∨ s.headers.length = 0 ∨ s.triggers.length = 0 ∨
      s.contents.length = 0 then
    some s
  else do
    let s1 ← (List.range s.triggers.length).foldlM (wireTrigger rnd) s
    let s2 ← (List.range s1.contents.length).foldlM wireContent s1
    pure { s2 with rootInitialized := true }

/-- A root container together with the four element collections the
constructor's `querySelectorAll` calls discover inside it (the selector
engine, including the `:not(:scope ... *)` nesting filter, is a host
collaborator; its output is taken as input here). -/
structure DocRoot where
  sections : List SectionEl
  headers : List HeaderEl
  triggers : List Trigger
  contents : List Content
  initializedAttr : Bool
deriving Repr, DecidableEq

/-- The fields of an `Accordion` object.  Every field is declared with a
definite-assignment assertion (`!:`) in the source and stays uninitialized
(`none`) when the constructor returns early. -/
structure AccordionInstance where
  rootElement : Option DocRoot
  defaults : Option AccordionOptions
  settings : Option AccordionOptions
  state : Option AccordionState
deriving Repr, DecidableEq

/-- The constructor `new Accordion(root, options?)`.  `root = none` models a
null/undefined root (`if (!root) return;`).  `reducedMotion` is the
`matchMedia('(prefers-reduced-motion: reduce)').matches` environment signal;
`rnd` supplies the random id suffixes used by `initialize`. -/
def constructAccordion (root : Option DocRoot) (opts : AccordionOptionsOverride)
    (reducedMotion : Bool) (rnd : Nat → String) : Option AccordionInstance :=
  match root with
  | none => some { rootElement := none, defaults := none, settings := none, state := none }
  | some r =>
    let dfl := defaultOptions
    -- this.settings = { selector: {...defaults.selector, ...options?.selector}, animation: {...} }
    let stg0 : AccordionOptions :=
      { selector := opts.selector.getD dfl.selector
        animation := opts.animation.getD dfl.animation }
    let stg :=
      if reducedMotion then { stg0 with animation := { stg0.animation with duration := 0 } }
      else stg0
    let st0 : AccordionState :=
      { settings := stg, sections := r.sections, headers := r.headers,
        triggers := r.triggers, contents := r.contents,
        animations := List.replicate r.sections.length none,
        canceledGens := [], pendingRaf := [], nextGen := 0,
        rootInitialized := r.initializedAttr }
    (initAccordion rnd st0).map fun st =>
      { rootElement := some r, defaults := some dfl, settings := some stg, state := some st }

/-- The input events the instance reacts to after initialization. -/
inductive AccEvent where
  | click (t : Nat)
  | keydown (k : String) (active : Option DocElem)
  | beforematch (c : Nat)
  | animFinish (g : Nat)
  | raf
  | openCall (t : Nat)
  | closeCall (t : Nat)
deriving Repr, DecidableEq

/-- One event-loop turn.  A keydown mutates only document focus (not part of
this state); an Enter/Space activation arrives as a separate `click` event. -/
def step (s : AccordionState) : AccEvent → Option AccordionState
  | .click t => handleTriggerClick s t
  | .keydown _ _ => some s
  | .beforematch c => handleContentBeforeMatch s c
  | .animFinish g => some (deliverFinish s g)
  | .raf => some (flushRaf s)
  | .openCall t => openT s t
  | .closeCall t => closeT s t

/-- A sequence of event-loop turns. -/
def steps (s : AccordionState) (es : List AccEvent) : Option AccordionState :=
  es.foldlM step s

/-- State components `toggle` never mutates (plus monotonicity of the
cancellation set and the generation counter). -/
def Preserves (s s' : AccordionState) : Prop :=
  s'.triggers = s.triggers ∧ s'.settings = s.settings ∧ s'.headers = s.headers ∧
  s'.contents.length = s.contents.length ∧
  (∀ i : Nat, (s'.contents[i]?).map Content.id = (s.contents[i]?).map Content.id) ∧
  s'.animations.length = s.animations.length ∧
  s'.sections.length = s.sections.length ∧
  s.canceledGens ⊆ s'.canceledGens ∧ s.nextGen ≤ s'.nextGen

/-- All element lookups `toggle` performs for trigger index `i` succeed. -/
def lookupsOk (s : AccordionState) (i : Nat) : Bool :=
  (s.sections[i]?).isSome && (s.headers[i]?).isSome &&
    match s.triggers[i]? with
    | some tr =>
      match tr.ariaControls with
      | some cid =>
        match firstIdxWhere (fun c => c.id = cid) s.contents with
        | some ci => (s.contents[ci]?).isSome
        | none => false
      | none => false
    | none => false

/-- Generation freshness: every stored or cancelled generation is below the
fresh-generation counter. -/
def WFgen (s : AccordionState) : Prop :=
  (∀ (i : Nat) (h : AnimHandle), s.animations[i]? = some (some h) → h.gen < s.nextGen) ∧
  (∀ g ∈ s.canceledGens, g < s.nextGen)

/-- Wiring alignment: every trigger's `aria-controls` resolves (via
`getElementById`, i.e. first id match in document order) to the content at
the trigger's own index.  Established by `initialize` on a well-formed
document and never disturbed afterwards, since no event mutates ids or
`aria-controls`. -/
def ControlsAligned (s : AccordionState) : Prop :=
  ∀ (i : Nat) (tr : Trigger), s.triggers[i]? = some tr →
    ∃ cid, tr.ariaControls = some cid ∧
      firstIdxWhere (fun c => c.id = cid) s.contents = some i

/-- The per-index animation invariant: a stored handle carries its own index
as `idx` and `contentIdx`, and the content it animates is currently not
hidden. -/
def Inv4 (s : AccordionState) : Prop :=
  ∀ (i : Nat) (h : AnimHandle), s.animations[i]? = some (some h) →
    h.idx = i ∧ h.contentIdx = i ∧
      ∃ c, s.contents[i]? = some c ∧ c.hidden = none

/-- The combined invariant preserved by every event. -/
def GoodState (s : AccordionState) : Prop := ControlsAligned s ∧ Inv4 s

/-- A focusable trigger with group key `"g"`, initially expanded. -/
def trOpenA : Trigger :=
  { id := "t0", ariaControls := some "c0", ariaExpanded := some "true",
    ariaDisabled := none, disabledAttr := false, dataName := some "g",
    tabIndex := 0, pointerEventsNone := false, clickListener := true,
    keydownListener := true }

/-- A focusable trigger with group key `"g"`, initially collapsed. -/
def trClosedB : Trigger :=
  { trOpenA with id := "t1", ariaControls := some "c1", ariaExpanded := some "false" }

/-- A non-focusable (`aria-disabled="true"`) collapsed trigger. -/
def trDis : Trigger :=
  { trOpenA with
    id := "t2"
    ariaControls := some "c2"
    ariaExpanded := some "false"
    ariaDisabled := some "true"
    tabIndex := -1
    pointerEventsNone := true }

/-- A focusable collapsed trigger without special marks. -/
def trC : Trigger :=
  { trOpenA with id := "t3", ariaControls := some "c3", ariaExpanded := some "false" }

/-- Content of the expanded panel (not hidden). -/
def contA : Content :=
  { id := "c0", ariaLabelledby := some "t0", role := some "region", hidden := none,
    beforematchListener := true, blockSize := 50 }

/-- Content of a collapsed panel (hidden until-found). -/
def contB : Content := { contA with id := "c1", hidden := some "until-found" }

/-- Content behind the disabled trigger. -/
def contDis : Content := { contA with id := "c2", hidden := some "until-found" }

/-- Content behind `trC`. -/
def contC : Content := { contA with id := "c3", hidden := some "until-found" }

/-- A section element with measured size and no inline styles. -/
def secStd : SectionEl := { blockSize := 80, overflow := none, inlineBlockSize := none }

/-- A header element. -/
def hdStd : HeaderEl := { blockSize := 30 }

/-- Two-panel instance: panel 0 expanded, panel 1 collapsed, same group. -/
def fix2 : AccordionState :=
  { settings := defaultOptions, sections := [secStd, secStd], headers := [hdStd, hdStd],
    triggers := [trOpenA, trClosedB], contents := [contA, contB],
    animations := [none, none], canceledGens := [], pendingRaf := [], nextGen := 0,
    rootInitialized := true }

/-- Three-panel instance whose middle trigger is disabled. -/
def fix3 : AccordionState :=
  { settings := defaultOptions, sections := [secStd, secStd, secStd],
    headers := [hdStd, hdStd, hdStd], triggers := [trOpenA, trDis, trC],
    contents := [contA, contDis, contC], animations := [none, none, none],
    canceledGens := [], pendingRaf := [], nextGen := 0, rootInitialized := true }

/-- Single-panel instance whose only trigger is disabled (zero focusable
triggers). -/
def fix1dis : AccordionState :=
  { settings := defaultOptions, sections := [secStd], headers := [hdStd],
    triggers := [trDis], contents := [contDis], animations := [none],
    canceledGens := [], pendingRaf := [], nextGen := 0, rootInitialized := true }

/-- Empty-collections instance (nothing discovered). -/
def fixEmpty : AccordionState :=
  { settings := defaultOptions, sections := [], headers := [], triggers := [],
    contents := [], animations := [], canceledGens := [], pendingRaf := [], nextGen := 0,
    rootInitialized := false }

/-- The two-panel instance after a first `open` of trigger 1. -/
def c3after : AccordionState := (openT fix2 1).getD fix2

/-- A live closing animation handle at index 1. -/
def hLive : AnimHandle :=
  { gen := 0, idx := 1, contentIdx := 1, opening := false, fromSize := 80, toSize := 30,
    duration := 300, easing := "ease" }

/-- The two-panel instance with a live animation at index 1. -/
def fix2Live : AccordionState := { fix2 with animations := [none, some hLive], nextGen := 1 }

/-- The state after re-toggling trigger 1 open while its close animation is
still in flight. -/
def c2after : AccordionState := (toggle fix2Live 1 true false).getD fix2Live

/-- At most one trigger with group key `n` is expanded. -/
def GroupInv (s : AccordionState) (n : String) : Prop :=
  ∀ (i j : Nat) (tri trj : Trigger), s.triggers[i]? = some tri →
    s.triggers[j]? = some trj → tri.dataName = some n → tri.ariaExpanded = some "true" →
    trj.dataName = some n → trj.ariaExpanded = some "true" → i = j

/-- The state after a match-reveal toggle of trigger 1 in the two-panel
group instance. -/
def c1after : AccordionState := (toggle fix2 1 true true).getD fix2

/-- The two-panel instance after an `open` call on trigger 1. -/
def c4after : AccordionState := (steps fix2 [AccEvent.openCall 1]).getD fix2

/-! ### Theorems -/

theorem fiw_lt_length {p : α → Prop} [DecidablePred p] {l : List α} {i : Nat}
    (h : firstIdxWhere p l = some i) : i < l.length := by
  induction l generalizing i with
  | nil => simp [firstIdxWhere] at h
  | cons x xs ih =>
    rw [firstIdxWhere] at h
    split at h
    · obtain rfl : i = 0 := by simpa using h.symm
      simp
    · rcases Option.map_eq_some'.mp h with ⟨j, hj, rfl⟩
      simpa using ih hj

theorem fiw_spec {p : α → Prop} [DecidablePred p] {l : List α} {i : Nat}
    (h : firstIdxWhere p l = some i) : ∃ x, l[i]? = some x ∧ p x := by
  induction l generalizing i with
  | nil => simp [firstIdxWhere] at h
  | cons x xs ih =>
    rw [firstIdxWhere] at h
    split at h
    · obtain rfl : i = 0 := by simpa using h.symm
      exact ⟨x, by simp, by assumption⟩
    · rcases Option.map_eq_some'.mp h with ⟨j, hj, rfl⟩
      rcases ih hj with ⟨y, hy, hp⟩
      exact ⟨y, by simpa using hy, hp⟩

theorem fiw_none {p : α → Prop} [DecidablePred p] {l : List α}
    (h : firstIdxWhere p l = none) : ∀ (i : Nat) (x : α), l[i]? = some x → ¬ p x := by
  induction l with
  | nil => intro i x hx; simp at hx
  | cons y ys ih =>
    rw [firstIdxWhere] at h
    split at h
    · simp at h
    · intro i x hx
      match i with
      | 0 => simp at hx; subst hx; assumption
      | i + 1 =>
        simp only [List.getElem?_cons_succ] at hx
        exact ih (by simpa using h) i x hx

theorem fiw_congr {p : α → Prop} [DecidablePred p] {l l' : List α}
    (hlen : l.length = l'.length)
    (h : ∀ (i : Nat) (x y : α), l[i]? = some x → l'[i]? = some y → (p x ↔ p y)) :
    firstIdxWhere p l = firstIdxWhere p l' := by
  induction l generalizing l' with
  | nil => cases l' <;> simp_all
  | cons x xs ih =>
    cases l' with
    | nil => simp at hlen
    | cons y ys =>
      rw [firstIdxWhere, firstIdxWhere]
      have h0 : p x ↔ p y := h 0 x y (by simp) (by simp)
      have hrest : firstIdxWhere p xs = firstIdxWhere p ys := by
        refine ih (by simpa using hlen) ?_
        intro i a b ha hb
        exact h (i + 1) a b (by simpa using ha) (by simpa using hb)
      by_cases hx : p x
      · rw [if_pos hx, if_pos (h0.mp hx)]
      · rw [if_neg hx, if_neg (fun hy => hx (h0.mpr hy)), hrest]

theorem fiw_set {p : α → Prop} [DecidablePred p] {l : List α} {i : Nat} {a b : α}
    (hb : l[i]? = some b) (hab : p a ↔ p b) :
    firstIdxWhere p (l.set i a) = firstIdxWhere p l := by
  refine fiw_congr (by simp) ?_
  intro j x y hx hy
  by_cases hij : i = j
  · subst hij
    rw [List.getElem?_set_self (List.getElem?_eq_some.mp hb).1] at hx
    rw [hy] at hb
    cases hx; cases hb
    exact hab
  · rw [List.getElem?_set_ne hij, hy] at hx
    cases hx
    exact Iff.rfl

theorem fiw_nodup {l : List Nat} {k j : Nat} (hnd : l.Nodup) (hk : l[k]? = some j) :
    firstIdxWhere (fun x => x = j) l = some k := by
  induction l generalizing k with
  | nil => simp at hk
  | cons x xs ih =>
    match k with
    | 0 =>
      simp only [List.getElem?_cons_zero] at hk
      cases hk
      rw [firstIdxWhere, if_pos rfl]
    | k + 1 =>
      simp only [List.getElem?_cons_succ] at hk
      have hmem : j ∈ xs := List.getElem?_mem hk
      have hxj : ¬ (x = j) := by
        rintro rfl
        exact (List.nodup_cons.mp hnd).1 hmem
      rw [firstIdxWhere, if_neg hxj, ih (List.nodup_cons.mp hnd).2 hk]
      rfl

theorem applyFlip_length (ts : List Trigger) (p : Nat × Bool) :
    (applyFlip ts p).length = ts.length := by
  rw [applyFlip]; split <;> simp

theorem applyFlips_length (ps : List (Nat × Bool)) (ts : List Trigger) :
    (ps.foldl applyFlip ts).length = ts.length := by
  induction ps generalizing ts with
  | nil => rfl
  | cons p ps ih => rw [List.foldl_cons, ih, applyFlip_length]

theorem applyFlip_get_ne (ts : List Trigger) (p : Nat × Bool) {j : Nat} (h : j ≠ p.1) :
    (applyFlip ts p)[j]? = ts[j]? := by
  rw [applyFlip]; split
  · exact List.getElem?_set_ne (fun hh => h hh.symm)
  · rfl

theorem applyFlip_get_self {ts : List Trigger} {t : Nat} {tr : Trigger} (b : Bool)
    (h : ts[t]? = some tr) :
    (applyFlip ts (t, b))[t]? = some { tr with ariaExpanded := some (boolStr b) } := by
  rw [applyFlip]
  simp only [h]
  exact List.getElem?_set_self (List.getElem?_eq_some.mp h).1

theorem applyFlips_get_notin (ps : List (Nat × Bool)) (ts : List Trigger) (j : Nat)
    (h : ∀ p ∈ ps, p.1 ≠ j) : (ps.foldl applyFlip ts)[j]? = ts[j]? := by
  induction ps generalizing ts with
  | nil => rfl
  | cons p ps ih =>
    rw [List.foldl_cons, ih _ (fun q hq => h q (List.mem_cons_of_mem p hq))]
    exact applyFlip_get_ne ts p (fun hj => h p (List.mem_cons_self p ps) hj.symm)

theorem applyFlips_last (qs : List (Nat × Bool)) (ts : List Trigger) (t : Nat) (b : Bool)
    (ht : t < ts.length) :
    ∃ tr', ((qs ++ [(t, b)]).foldl applyFlip ts)[t]? = some tr' ∧
      tr'.ariaExpanded = some (boolStr b) := by
  rw [List.foldl_append, List.foldl_cons, List.foldl_nil]
  have hlen : t < (qs.foldl applyFlip ts).length := by rwa [applyFlips_length]
  rcases List.getElem?_eq_some.mpr ⟨hlen, rfl⟩ with h
  exact ⟨_, applyFlip_get_self b h, rfl⟩

theorem toggleCore_eval {s : AccordionState} {t : Nat} (o m : Bool) {tr : Trigger}
    {sect : SectionEl} {cid : String} {ci : Nat} {content : Content} {hd : HeaderEl}
    (h1 : s.triggers[t]? = some tr) (h2 : s.sections[t]? = some sect)
    (h3 : tr.ariaControls = some cid)
    (h4 : firstIdxWhere (fun c => c.id = cid) s.contents = some ci)
    (h5 : s.contents[ci]? = some content)
    (h6 : s.headers[t]? = some hd) :
    toggleCore s t o m = some (coreResult s t o m sect ci content hd) := by
  rcases hA : s.animations[t]? with _ | (_ | a) <;>
    simp [toggleCore, coreResult, mkHandle, h1, h2, h3, h4, h5, h6, hA]

theorem toggleCore_inv {s : AccordionState} {t : Nat} {o m : Bool} {s' : AccordionState}
    (h : toggleCore s t o m = some s') :
    ∃ tr sect cid ci content hd,
      s.triggers[t]? = some tr ∧ s.sections[t]? = some sect ∧
      tr.ariaControls = some cid ∧
      firstIdxWhere (fun c => c.id = cid) s.contents = some ci ∧
      s.contents[ci]? = some content ∧ s.headers[t]? = some hd ∧
      s' = coreResult s t o m sect ci content hd := by
  rcases h1 : s.triggers[t]? with _ | tr
  · rw [toggleCore] at h; simp [h1] at h
  rcases h2 : s.sections[t]? with _ | sect
  · rw [toggleCore] at h; simp [h1, h2] at h
  rcases h3 : tr.ariaControls with _ | cid
  · rw [toggleCore] at h
    rcases hA : s.animations[t]? with _ | (_ | a) <;> simp [h1, h2, h3, hA] at h
  rcases h4 : firstIdxWhere (fun c => c.id = cid) s.contents with _ | ci
  · rw [toggleCore] at h
    rcases hA : s.animations[t]? with _ | (_ | a) <;> simp [h1, h2, h3, h4, hA] at h
  rcases h5 : s.contents[ci]? with _ | content
  · rw [toggleCore] at h
    rcases hA : s.animations[t]? with _ | (_ | a) <;> simp [h1, h2, h3, h4, h5, hA] at h
  rcases h6 : s.headers[t]? with _ | hd
  · rw [toggleCore] at h
    rcases hA : s.animations[t]? with _ | (_ | a) <;> simp [h1, h2, h3, h4, h5, h6, hA] at h
  refine ⟨tr, sect, cid, ci, content, hd, rfl, rfl, h3, h4, h5, rfl, ?_⟩
  have heval := toggleCore_eval o m h1 h2 h3 h4 h5 h6
  rw [h] at heval
  exact Option.some_inj.mp heval

theorem groupStep_false (f : AccordionState → Nat → Option AccordionState)
    (s : AccordionState) (t : Nat) (tr : Trigger) :
    groupStep f s t false tr = some s := by
  rw [groupStep]
  rcases tr.dataName with _ | n
  · rfl
  · dsimp only
    split
    · rfl
    · rcases querySelectorExpandedName s.triggers n with _ | c
      · rfl
      · simp

theorem toggleBody_closeFn_irrel (f g : AccordionState → Nat → Option AccordionState)
    (s : AccordionState) (t : Nat) (m : Bool) :
    toggleBody f s t false m = toggleBody g s t false m := by
  rw [toggleBody, toggleBody]
  rcases h1 : s.triggers[t]? with _ | tr
  · rfl
  · simp only [Option.bind_eq_bind, Option.some_bind]
    split
    · rfl
    · rw [groupStep_false, groupStep_false]

theorem closeT_eq_closeNR (s : AccordionState) (c : Nat) : closeT s c = closeNR s c := by
  rw [closeT, closeNR]
  split
  · exact toggleBody_closeFn_irrel _ _ s c false
  · rfl

theorem toggleBody_guard {f : AccordionState → Nat → Option AccordionState}
    {s : AccordionState} {t : Nat} {o m : Bool} {tr : Trigger}
    (h1 : s.triggers[t]? = some tr) (hg : some (boolStr o) = tr.ariaExpanded) :
    toggleBody f s t o m = some s := by
  rw [toggleBody]
  simp [h1, hg]

theorem toggleBody_inv {f : AccordionState → Nat → Option AccordionState}
    {s : AccordionState} {t : Nat} {o m : Bool} {s' : AccordionState}
    (h : toggleBody f s t o m = some s') :
    (∃ tr, s.triggers[t]? = some tr ∧ some (boolStr o) = tr.ariaExpanded ∧ s' = s) ∨
    (∃ tr s1, s.triggers[t]? = some tr ∧ some (boolStr o) ≠ tr.ariaExpanded ∧
      groupStep f s t o tr = some s1 ∧ toggleCore s1 t o m = some s') := by
  rw [toggleBody] at h
  rcases h1 : s.triggers[t]? with _ | tr
  · simp [h1] at h
  simp only [h1, Option.bind_eq_bind, Option.some_bind] at h
  by_cases hg : some (boolStr o) = tr.ariaExpanded
  · rw [if_pos hg] at h
    exact Or.inl ⟨tr, rfl, hg, (Option.some_inj.mp h).symm⟩
  · rw [if_neg hg] at h
    rcases hgs : groupStep f s t o tr with _ | s1
    · simp [hgs] at h
    · simp only [hgs, Option.some_bind] at h
      exact Or.inr ⟨tr, s1, rfl, hg, hgs, h⟩

theorem groupStep_inv {f : AccordionState → Nat → Option AccordionState}
    {s : AccordionState} {t : Nat} {o : Bool} {tr : Trigger} {s1 : AccordionState}
    (h : groupStep f s t o tr = some s1) :
    s1 = s ∨
    (∃ n c, tr.dataName = some n ∧ n ≠ "" ∧
      querySelectorExpandedName s.triggers n = some c ∧ o = true ∧ c ≠ t ∧
      f s c = some s1) := by
  rw [groupStep] at h
  rcases hn : tr.dataName with _ | n
  · rw [hn] at h
    exact Or.inl (Option.some_inj.mp h).symm
  rw [hn] at h
  dsimp only at h
  by_cases hne : n = ""
  · rw [if_pos hne] at h
    exact Or.inl (Option.some_inj.mp h).symm
  rw [if_neg hne] at h
  rcases hq : querySelectorExpandedName s.triggers n with _ | c
  · rw [hq] at h
    exact Or.inl (Option.some_inj.mp h).symm
  rw [hq] at h
  dsimp only at h
  by_cases hoc : o ∧ c ≠ t
  · rw [if_pos hoc] at h
    exact Or.inr ⟨n, c, rfl, hne, hq, hoc.1, hoc.2, h⟩
  · rw [if_neg hoc] at h
    exact Or.inl (Option.some_inj.mp h).symm

theorem Preserves.refl (s : AccordionState) : Preserves s s :=
  ⟨rfl, rfl, rfl, rfl, fun _ => rfl, rfl, rfl, fun _ h => h, Nat.le_refl _⟩

theorem Preserves.trans {s s' s'' : AccordionState}
    (h1 : Preserves s s') (h2 : Preserves s' s'') : Preserves s s'' := by
  obtain ⟨a1, b1, c1, d1, e1, f1, g1, i1, j1⟩ := h1
  obtain ⟨a2, b2, c2, d2, e2, f2, g2, i2, j2⟩ := h2
  exact ⟨a2.trans a1, b2.trans b1, c2.trans c1, d2.trans d1,
    fun i => (e2 i).trans (e1 i), f2.trans f1, g2.trans g1,
    fun g hg => i2 (i1 hg), j1.trans j2⟩

theorem toggleCore_pres {s : AccordionState} {t : Nat} {o m : Bool} {s' : AccordionState}
    (h : toggleCore s t o m = some s') :
    Preserves s s' ∧ s'.pendingRaf = s.pendingRaf ++ [(t, o)] ∧
      ∀ j : Nat, j ≠ t → s'.animations[j]? = s.animations[j]? := by
  obtain ⟨tr, sect, cid, ci, content, hd, h1, h2, h3, h4, h5, h6, rfl⟩ := toggleCore_inv h
  have hci : ci < s.contents.length := (List.getElem?_eq_some.mp h5).1
  refine ⟨⟨rfl, rfl, rfl, by simp [coreResult], ?_, by simp [coreResult],
    by simp [coreResult], ?_, by simp [coreResult]⟩, rfl, ?_⟩
  · intro i
    by_cases hic : i = ci
    · subst hic
      simp [coreResult, List.getElem?_set_self hci, h5]
    · simp [coreResult, List.getElem?_set_ne (fun hh => hic hh.symm)]
  · intro g hg
    simp only [coreResult]
    split <;> simp [List.mem_cons, hg]
  · intro j hj
    simp [coreResult, List.getElem?_set_ne (fun hh => hj hh.symm)]

theorem closeNR_pres {s : AccordionState} {c : Nat} {s1 : AccordionState}
    (h : closeNR s c = some s1) :
    Preserves s s1 ∧
      (s1.pendingRaf = s.pendingRaf ∨ s1.pendingRaf = s.pendingRaf ++ [(c, false)]) ∧
      ∀ j : Nat, j ≠ c → s1.animations[j]? = s.animations[j]? := by
  rw [closeNR] at h
  split at h
  · rcases toggleBody_inv h with ⟨tr, _, _, rfl⟩ | ⟨tr, sg, h1, hg, hgs, hcore⟩
    · exact ⟨Preserves.refl _, Or.inl rfl, fun _ _ => rfl⟩
    · rcases groupStep_inv hgs with rfl | ⟨n, cc, _, _, _, ho, _, _⟩
      · rcases toggleCore_pres hcore with ⟨hp, hraf, hanim⟩
        exact ⟨hp, Or.inr hraf, hanim⟩
      · simp at ho
  · exact ⟨(Option.some_inj.mp h) ▸ Preserves.refl s,
      Or.inl ((Option.some_inj.mp h) ▸ rfl), fun j _ => (Option.some_inj.mp h) ▸ rfl⟩

theorem toggle_pres {s : AccordionState} {t : Nat} {o m : Bool} {s' : AccordionState}
    (h : toggle s t o m = some s') :
    Preserves s s' ∧
      (s' = s ∨ ∃ qs, s'.pendingRaf = s.pendingRaf ++ (qs ++ [(t, o)])) := by
  rcases toggleBody_inv h with ⟨tr, _, _, rfl⟩ | ⟨tr, sg, h1, hg, hgs, hcore⟩
  · exact ⟨Preserves.refl _, Or.inl rfl⟩
  · rcases toggleCore_pres hcore with ⟨hp2, hraf2, _⟩
    rcases groupStep_inv hgs with rfl | ⟨n, c, _, _, _, _, _, hcl⟩
    · exact ⟨hp2, Or.inr ⟨[], by simpa using hraf2⟩⟩
    · rcases closeNR_pres hcl with ⟨hp1, hraf1 | hraf1, _⟩
      · exact ⟨hp1.trans hp2, Or.inr ⟨[], by simp [hraf2, hraf1]⟩⟩
      · exact ⟨hp1.trans hp2, Or.inr ⟨[(c, false)], by simp [hraf2, hraf1]⟩⟩

theorem flushRaf_noop {s : AccordionState} (h : s.pendingRaf = []) : flushRaf s = s := by
  rcases s
  simp_all [flushRaf]

theorem groupStepNR_pres {s : AccordionState} {t : Nat} {o : Bool} {tr : Trigger}
    {sg : AccordionState} (hgs : groupStep closeNR s t o tr = some sg) : Preserves s sg := by
  rcases groupStep_inv hgs with rfl | ⟨n, c, _, _, _, _, _, hcl⟩
  · exact Preserves.refl _
  · exact (closeNR_pres hcl).1

theorem openT_twice_settled (s s1 : AccordionState) (t : Nat) (hraf : s.pendingRaf = [])
    (hopen : openT s t = some s1) : openT (flushRaf s1) t = some (flushRaf s1) := by
  by_cases hmem : t < s.triggers.length
  · rw [openT, if_pos hmem] at hopen
    rcases toggleBody_inv hopen with ⟨tr, h1, hg, rfl⟩ | ⟨tr, sg, h1, hg, hgs, hcore⟩
    · rw [flushRaf_noop hraf]
      rw [openT, if_pos hmem]
      exact toggleBody_guard h1 hg
    · rcases toggleCore_pres hcore with ⟨hp2, hraf2, _⟩
      have htr_eq : s1.triggers = s.triggers := hp2.1.trans (groupStepNR_pres hgs).1
      have hflt : (flushRaf s1).triggers =
          (sg.pendingRaf ++ [(t, true)]).foldl applyFlip s.triggers := by
        show s1.pendingRaf.foldl applyFlip s1.triggers = _
        rw [hraf2, htr_eq]
      obtain ⟨tr', hget, hexp⟩ := applyFlips_last sg.pendingRaf s.triggers t true hmem
      have hmem' : t < (flushRaf s1).triggers.length := by
        rw [hflt, applyFlips_length]; exact hmem
      rw [openT, if_pos hmem']
      refine @toggleBody_guard _ _ _ _ _ tr' ?_ ?_
      · rw [hflt]; exact hget
      · rw [hexp]
  · rw [openT, if_neg hmem] at hopen
    obtain rfl : s = s1 := Option.some_inj.mp hopen
    rw [flushRaf_noop hraf]
    rw [openT, if_neg hmem]

theorem keydown_activate (s : AccordionState) (cur : DocElem) {key : String}
    (hkey : key = "Enter" ∨ key = " ") :
    handleTriggerKeyDown s key (some cur) = KeyResult.activate cur := by
  rcases hkey with rfl | rfl <;>
    · rw [handleTriggerKeyDown, if_neg (by decide)]
      dsimp only
      rw [if_pos (by simp)]

theorem focusTo_mem {s : AccordionState} {key : String} {active : Option DocElem} {j : Nat}
    (h : handleTriggerKeyDown s key active = KeyResult.focusTo j) :
    j ∈ focusableIdxs s.triggers := by
  rw [handleTriggerKeyDown] at h
  dsimp only at h
  repeat' split at h
  all_goals cases h
  all_goals rename_i heq
  all_goals exact List.getElem?_mem heq

theorem mem_focusableIdxs {ts : List Trigger} {j : Nat} (h : j ∈ focusableIdxs ts) :
    ∃ tr, ts[j]? = some tr ∧ isFocusable tr = true := by
  rw [focusableIdxs] at h
  have hp := (List.mem_filter.mp h).2
  rcases htr : ts[j]? with _ | tr
  · rw [htr] at hp; simp at hp
  · rw [htr] at hp
    exact ⟨tr, rfl, hp⟩

theorem keydown_arrowDown_last (s : AccordionState) (n a z : Nat)
    (hn : (focusableIdxs s.triggers).length = n + 1)
    (ha : (focusableIdxs s.triggers)[0]? = some a)
    (hz : (focusableIdxs s.triggers)[n]? = some z) :
    handleTriggerKeyDown s "ArrowDown" (some (DocElem.trig z)) = KeyResult.focusTo a := by
  have hnd : (focusableIdxs s.triggers).Nodup := List.Nodup.filter _ (List.nodup_range _)
  have hiz := fiw_nodup hnd hz
  rw [handleTriggerKeyDown, if_neg (by decide)]
  dsimp only
  rw [if_neg (by decide), hiz]
  dsimp only
  rw [if_neg (by decide), if_neg (by decide), if_neg (by decide)]
  rw [jsRem, if_neg (by rw [hn]; exact_mod_cast Nat.succ_ne_zero n)]
  have : ((n : Int) + 1).tmod ((focusableIdxs s.triggers).length : Int) = 0 := by
    rw [hn]; push_cast; exact Int.tmod_self
  rw [this]
  dsimp only
  rw [if_pos le_rfl]
  simp [ha]

theorem keydown_arrowUp_first (s : AccordionState) (n a z : Nat)
    (hn : (focusableIdxs s.triggers).length = n + 1)
    (ha : (focusableIdxs s.triggers)[0]? = some a)
    (hz : (focusableIdxs s.triggers)[n]? = some z) :
    handleTriggerKeyDown s "ArrowUp" (some (DocElem.trig a)) = KeyResult.focusTo z := by
  have hnd : (focusableIdxs s.triggers).Nodup := List.Nodup.filter _ (List.nodup_range _)
  have hia := fiw_nodup hnd ha
  rw [handleTriggerKeyDown, if_neg (by decide)]
  dsimp only
  rw [if_neg (by decide), hia]
  dsimp only
  rw [if_neg (by decide), if_neg (by decide), if_pos rfl]
  rw [jsRem, if_neg (by rw [hn]; exact_mod_cast Nat.succ_ne_zero n)]
  have harith : ((0 : Nat) : Int) - 1 + ((focusableIdxs s.triggers).length : Int) = (n : Int) := by
    rw [hn]; push_cast; ring
  rw [harith]
  have htm : (n : Int).tmod ((focusableIdxs s.triggers).length : Int) = (n : Int) := by
    rw [hn]
    rw [Int.tmod_eq_emod (by positivity) (by positivity)]
    exact Int.emod_eq_of_lt (by positivity) (by exact_mod_cast Nat.lt_succ_self n)
  rw [htm]
  dsimp only
  rw [if_pos (by positivity)]
  simp [hz]

theorem keydown_home (s : AccordionState) (a : Nat) (cur : DocElem)
    (ha : (focusableIdxs s.triggers)[0]? = some a) :
    handleTriggerKeyDown s "Home" (some cur) = KeyResult.focusTo a := by
  rw [handleTriggerKeyDown, if_neg (by decide)]
  dsimp only
  rw [if_neg (by decide), if_neg (by decide), if_pos rfl]
  dsimp only
  rw [if_pos le_rfl]
  simp [ha]

theorem keydown_end (s : AccordionState) (n z : Nat)
    (hn : (focusableIdxs s.triggers).length = n + 1)
    (hz : (focusableIdxs s.triggers)[n]? = some z) (cur : DocElem) :
    handleTriggerKeyDown s "End" (some cur) = KeyResult.focusTo z := by
  rw [handleTriggerKeyDown, if_neg (by decide)]
  dsimp only
  rw [if_neg (by decide), if_pos rfl]
  have harith : ((focusableIdxs s.triggers).length : Int) - 1 = (n : Int) := by
    rw [hn]; push_cast; ring
  rw [harith]
  dsimp only
  rw [if_pos (by positivity)]
  simp [hz]

theorem lookupsOk_spec {s : AccordionState} {i : Nat} {tr : Trigger}
    (h : lookupsOk s i = true) (htr : s.triggers[i]? = some tr) :
    ∃ sect hd cid ci cont, s.sections[i]? = some sect ∧ s.headers[i]? = some hd ∧
      tr.ariaControls = some cid ∧
      firstIdxWhere (fun c => c.id = cid) s.contents = some ci ∧
      s.contents[ci]? = some cont := by
  rw [lookupsOk, htr] at h
  simp only [Bool.and_eq_true, Option.isSome_iff_exists] at h
  obtain ⟨⟨⟨sect, hsect⟩, hd, hhd⟩, hrest⟩ := h
  rcases hcid : tr.ariaControls with _ | cid
  · rw [hcid] at hrest; simp at hrest
  rw [hcid] at hrest
  dsimp only at hrest
  rcases hfiw : firstIdxWhere (fun c => c.id = cid) s.contents with _ | ci
  · rw [hfiw] at hrest; simp at hrest
  rw [hfiw] at hrest
  dsimp only at hrest
  rcases Option.isSome_iff_exists.mp hrest with ⟨cont, hcont⟩
  exact ⟨sect, hd, cid, ci, cont, hsect, hhd, rfl, hfiw, hcont⟩

theorem closeNR_total {s : AccordionState} {c : Nat} {trc : Trigger}
    (htr : s.triggers[c]? = some trc)
    (hexp : trc.ariaExpanded = some "true")
    (hlk : lookupsOk s c = true) :
    ∃ sect ci cont hd, s.sections[c]? = some sect ∧
      firstIdxWhere (fun cc => cc.id = (trc.ariaControls.getD "")) s.contents = some ci ∧
      s.contents[ci]? = some cont ∧ s.headers[c]? = some hd ∧
      closeNR s c = some (coreResult s c false false sect ci cont hd) := by
  obtain ⟨sect, hd, cid, ci, cont, hsect, hhd, hcid, hfiw, hcont⟩ := lookupsOk_spec hlk htr
  have hc : c < s.triggers.length := (List.getElem?_eq_some.mp htr).1
  refine ⟨sect, ci, cont, hd, hsect, ?_, hcont, hhd, ?_⟩
  · rw [hcid]; exact hfiw
  · rw [closeNR, if_pos hc, toggleBody]
    simp only [htr, Option.bind_eq_bind, Option.some_bind]
    rw [if_neg (by rw [hexp]; simp [boolStr])]
    rw [groupStep_false]
    simp only [Option.some_bind]
    exact toggleCore_eval false false htr hsect hcid hfiw hcont hhd

theorem toggle_total {s : AccordionState} {t : Nat} {tr : Trigger} (o m : Bool)
    (htr : s.triggers[t]? = some tr)
    (hg : some (boolStr o) ≠ tr.ariaExpanded)
    (hWF : ∀ j, j < s.triggers.length → lookupsOk s j = true)
    (hlen : s.animations.length = s.triggers.length) :
    ∃ s', toggle s t o m = some s' ∧ Preserves s s' ∧
      (∃ h', s'.animations[t]? = some (some h') ∧ h'.opening = o ∧ h'.idx = t ∧
        h'.duration = (if !m then s.settings.animation.duration else 0)) ∧
      (∃ qs, s'.pendingRaf = s.pendingRaf ++ (qs ++ [(t, o)])) := by
  have ht : t < s.triggers.length := (List.getElem?_eq_some.mp htr).1
  obtain ⟨sect, hd, cid, ci, cont, hsect, hhd, hcid, hfiw, hcont⟩ :=
    lookupsOk_spec (hWF t ht) htr
  -- the group-exclusion step succeeds and preserves the relevant state
  have hsg : ∃ sg, groupStep closeNR s t o tr = some sg ∧ Preserves s sg ∧
      (sg.pendingRaf = s.pendingRaf ∨ ∃ c, sg.pendingRaf = s.pendingRaf ++ [(c, false)]) := by
    rcases hn : tr.dataName with _ | n
    · exact ⟨s, by rw [groupStep, hn], Preserves.refl s, Or.inl rfl⟩
    by_cases hne : n = ""
    · refine ⟨s, ?_, Preserves.refl s, Or.inl rfl⟩
      rw [groupStep, hn]; dsimp only; rw [if_pos hne]
    rcases hq : querySelectorExpandedName s.triggers n with _ | c
    · refine ⟨s, ?_, Preserves.refl s, Or.inl rfl⟩
      rw [groupStep, hn]; dsimp only; rw [if_neg hne, hq]
    by_cases hoc : o = true ∧ c ≠ t
    · obtain ⟨trc, htrc, hprops⟩ := fiw_spec hq
      have hcl : c < s.triggers.length := fiw_lt_length hq
      obtain ⟨sectC, ciC, contC, hdC, _, _, _, _, hclose⟩ :=
        closeNR_total htrc hprops.1 (hWF c hcl)
      refine ⟨_, ?_, (closeNR_pres hclose).1, ?_⟩
      · rw [groupStep, hn]
        dsimp only
        rw [if_neg hne, hq]
        dsimp only
        rw [if_pos hoc]
        exact hclose
      · rcases (closeNR_pres hclose).2.1 with hr | hr
        · exact Or.inl hr
        · exact Or.inr ⟨c, hr⟩
    · refine ⟨s, ?_, Preserves.refl s, Or.inl rfl⟩
      rw [groupStep, hn]; dsimp only; rw [if_neg hne, hq]; dsimp only; rw [if_neg hoc]
  obtain ⟨sg, hgs, hpres, hrafg⟩ := hsg
  obtain ⟨htrg, hstg, hhdg, hclen, hcids, halen, hslen, hcanc, hgen⟩ := hpres
  -- transported lookups at t
  have htr' : sg.triggers[t]? = some tr := by rw [htrg]; exact htr
  have hsect' : ∃ sect', sg.sections[t]? = some sect' := by
    have hlt : t < sg.sections.length := by
      rw [hslen]; exact (List.getElem?_eq_some.mp hsect).1
    exact ⟨_, List.getElem?_eq_some.mpr ⟨hlt, rfl⟩⟩
  obtain ⟨sect', hsect'⟩ := hsect'
  have hhd' : sg.headers[t]? = some hd := by rw [hhdg]; exact hhd
  have hfiw' : firstIdxWhere (fun c => c.id = cid) sg.contents = some ci := by
    rw [fiw_congr hclen ?_]
    · exact hfiw
    · intro i x y hx hy
      have hmap := hcids i
      rw [hx, hy] at hmap
      simp only [Option.map_some'] at hmap
      rw [Option.some_inj.mp hmap]
  have hcont' : ∃ cont', sg.contents[ci]? = some cont' := by
    have hlt : ci < sg.contents.length := by
      rw [hclen]; exact (List.getElem?_eq_some.mp hcont).1
    exact ⟨_, List.getElem?_eq_some.mpr ⟨hlt, rfl⟩⟩
  obtain ⟨cont', hcont'⟩ := hcont'
  have hcore := toggleCore_eval o m htr' hsect' hcid hfiw' hcont' hhd'
  have htog : toggle s t o m = some (coreResult sg t o m sect' ci cont' hd) := by
    rw [toggle, toggleBody]
    simp only [htr, Option.bind_eq_bind, Option.some_bind]
    rw [if_neg hg, hgs]
    simp only [Option.some_bind]
    exact hcore
  obtain ⟨hpres2, hraf2, _⟩ := toggleCore_pres hcore
  refine ⟨_, htog,
    Preserves.trans ⟨htrg, hstg, hhdg, hclen, hcids, halen, hslen, hcanc, hgen⟩ hpres2,
    ?_, ?_⟩
  · have htlt : t < sg.animations.length := by
      rw [halen, hlen]; exact ht
    refine ⟨mkHandle sg t ci o m sect' cont' hd, ?_, rfl, rfl, ?_⟩
    · show (coreResult sg t o m sect' ci cont' hd).animations[t]? = _
      simp [coreResult, List.getElem?_set_self htlt]
    · show (if !m then sg.settings.animation.duration else 0) = _
      rw [hstg]
  · rcases hrafg with hr | ⟨c, hr⟩
    · exact ⟨[], by rw [hraf2, hr]; simp⟩
    · exact ⟨[(c, false)], by rw [hraf2, hr]; simp⟩

theorem WFgen_toggleCore {s : AccordionState} {t : Nat} {o m : Bool} {s' : AccordionState}
    (hW : WFgen s) (h : toggleCore s t o m = some s') : WFgen s' := by
  obtain ⟨tr, sect, cid, ci, content, hd, h1, h2, h3, h4, h5, h6, rfl⟩ := toggleCore_inv h
  constructor
  · intro i hh hi
    show hh.gen < s.nextGen + 1
    by_cases hit : i = t
    · subst hit
      by_cases hlt : i < s.animations.length
      · have hset : (coreResult s i o m sect ci content hd).animations[i]? =
            some (some (mkHandle s i ci o m sect content hd)) := by
          show (s.animations.set i _)[i]? = _
          exact List.getElem?_set_self hlt
        rw [hset] at hi
        obtain rfl : hh = mkHandle s i ci o m sect content hd := by
          simpa using hi.symm
        exact Nat.lt_succ_self _
      · have hset : (coreResult s i o m sect ci content hd).animations[i]? = none := by
          show (s.animations.set i _)[i]? = none
          exact List.getElem?_eq_none (by rw [List.length_set]; omega)
        rw [hset] at hi
        cases hi
    · rw [show (coreResult s t o m sect ci content hd).animations[i]? =
          (s.animations.set t (some (mkHandle s t ci o m sect content hd)))[i]? from rfl,
        List.getElem?_set_ne (fun hh' => hit hh'.symm)] at hi
      exact Nat.lt_succ_of_lt (hW.1 i hh hi)
  · intro g hgmem
    show g < s.nextGen + 1
    have hc : (coreResult s t o m sect ci content hd).canceledGens =
        match s.animations[t]? with
        | some (some a) => a.gen :: s.canceledGens
        | _ => s.canceledGens := rfl
    rw [hc] at hgmem
    rcases hA : s.animations[t]? with _ | (_ | a) <;> rw [hA] at hgmem
    · exact Nat.lt_succ_of_lt (hW.2 g hgmem)
    · exact Nat.lt_succ_of_lt (hW.2 g hgmem)
    · rcases List.mem_cons.mp hgmem with rfl | hgmem
      · exact Nat.lt_succ_of_lt (hW.1 t a hA)
      · exact Nat.lt_succ_of_lt (hW.2 g hgmem)

theorem WFgen_closeNR {s : AccordionState} {c : Nat} {s1 : AccordionState}
    (hW : WFgen s) (h : closeNR s c = some s1) : WFgen s1 := by
  rw [closeNR] at h
  split at h
  · rcases toggleBody_inv h with ⟨tr, _, _, rfl⟩ | ⟨tr, sg, h1, hg, hgs, hcore⟩
    · exact hW
    · rcases groupStep_inv hgs with rfl | ⟨n, cc, _, _, _, ho, _, _⟩
      · exact WFgen_toggleCore hW hcore
      · simp at ho
  · exact (Option.some_inj.mp h) ▸ hW

theorem anims_get_closeNR {s : AccordionState} {c : Nat} {s1 : AccordionState}
    (h : closeNR s c = some s1) {j : Nat} (hj : j ≠ c) :
    s1.animations[j]? = s.animations[j]? :=
  (closeNR_pres h).2.2 j hj

theorem deliverFinish_canceled (s : AccordionState) (g : Nat) :
    (deliverFinish s g).canceledGens = s.canceledGens := by
  rw [deliverFinish]
  repeat' split
  all_goals dsimp only
  all_goals repeat' split
  all_goals rfl

theorem toggle_canceled_mono {s : AccordionState} {t : Nat} {o m : Bool}
    {s' : AccordionState} (h : toggle s t o m = some s') :
    s.canceledGens ⊆ s'.canceledGens := by
  obtain ⟨⟨_, _, _, _, _, _, _, hc, _⟩, _⟩ := toggle_pres h
  exact hc

theorem step_canceled_mono {s s1 : AccordionState} {e : AccEvent}
    (h : step s e = some s1) : s.canceledGens ⊆ s1.canceledGens := by
  cases e with
  | click t =>
    rw [step, handleTriggerClick] at h
    rcases h1 : s.triggers[t]? with _ | tr
    · simp [h1] at h
    · simp only [h1, Option.bind_eq_bind, Option.some_bind] at h
      exact toggle_canceled_mono h
  | keydown k a =>
    cases Option.some_inj.mp h
    exact fun _ hh => hh
  | beforematch c =>
    rw [step, handleContentBeforeMatch] at h
    rcases h1 : s.contents[c]? with _ | cont
    · simp [h1] at h
    simp only [h1, Option.bind_eq_bind, Option.some_bind] at h
    rcases h2 : firstIdxWhere (fun tr => tr.ariaControls = some cont.id) s.triggers with _ | t
    · simp [h2] at h
    simp only [h2, Option.some_bind] at h
    rcases h3 : s.triggers[t]? with _ | tr
    · simp [h3] at h
    simp only [h3, Option.some_bind] at h
    split at h
    · cases Option.some_inj.mp h
      exact fun _ hh => hh
    · exact toggle_canceled_mono h
  | animFinish g =>
    cases Option.some_inj.mp h
    rw [deliverFinish_canceled]
    exact fun _ hh => hh
  | raf =>
    cases Option.some_inj.mp h
    exact fun _ hh => hh
  | openCall t =>
    rw [step, openT] at h
    split at h
    · exact toggle_canceled_mono h
    · cases Option.some_inj.mp h
      exact fun _ hh => hh
  | closeCall t =>
    rw [step, closeT] at h
    split at h
    · exact toggle_canceled_mono h
    · cases Option.some_inj.mp h
      exact fun _ hh => hh

theorem steps_canceled_mono {s s' : AccordionState} {es : List AccEvent}
    (h : steps s es = some s') : s.canceledGens ⊆ s'.canceledGens := by
  induction es generalizing s with
  | nil =>
    cases Option.some_inj.mp h
    exact fun _ hh => hh
  | cons e es ih =>
    rw [steps, List.foldlM_cons] at h
    rcases hstep : step s e with _ | s1
    · rw [hstep] at h; simp at h
    · rw [hstep] at h
      simp only [Option.bind_eq_bind, Option.some_bind] at h
      exact fun g hg => ih h (step_canceled_mono hstep hg)

theorem good_toggleCore {s : AccordionState} {t : Nat} {o m : Bool} {s' : AccordionState}
    (hG : GoodState s) (h : toggleCore s t o m = some s') : GoodState s' := by
  obtain ⟨tr, sect, cid, ci, content, hd, h1, h2, h3, h4, h5, h6, rfl⟩ := toggleCore_inv h
  obtain ⟨hCA, hI⟩ := hG
  -- alignment pins the looked-up content index to t
  obtain ⟨cid0, hcid0, hfiw0⟩ := hCA t tr h1
  obtain rfl : cid0 = cid := by rw [hcid0] at h3; exact Option.some_inj.mp h3
  have hci : t = ci := by rw [hfiw0] at h4; exact Option.some_inj.mp h4
  subst hci
  have hct : t < s.contents.length := (List.getElem?_eq_some.mp h5).1
  have hids : ∀ i : Nat,
      ((coreResult s t o m sect t content hd).contents[i]?).map Content.id =
        (s.contents[i]?).map Content.id := by
    intro i
    by_cases hit : i = t
    · subst hit
      show ((s.contents.set i { content with hidden := none })[i]?).map _ = _
      rw [List.getElem?_set_self hct, h5]
      rfl
    · show ((s.contents.set t { content with hidden := none })[i]?).map _ = _
      rw [List.getElem?_set_ne (fun hh => hit hh.symm)]
  constructor
  · -- ControlsAligned
    intro i tri htri
    obtain ⟨cidi, hcidi, hfiwi⟩ := hCA i tri htri
    refine ⟨cidi, hcidi, ?_⟩
    rw [@fiw_congr _ _ _ _ s.contents (by simp [coreResult]) ?_]
    · exact hfiwi
    · intro j x y hx hy
      have hmap := hids j
      rw [hx, hy] at hmap
      simp only [Option.map_some'] at hmap
      rw [Option.some_inj.mp hmap]
  · -- Inv4
    intro i hh hi
    by_cases hit : i = t
    · subst hit
      by_cases hlt : i < s.animations.length
      · have hset : (coreResult s i o m sect i content hd).animations[i]? =
            some (some (mkHandle s i i o m sect content hd)) := by
          show (s.animations.set i _)[i]? = _
          exact List.getElem?_set_self hlt
        rw [hset] at hi
        obtain rfl : hh = mkHandle s i i o m sect content hd := by simpa using hi.symm
        refine ⟨rfl, rfl, ⟨{ content with hidden := none }, ?_, rfl⟩⟩
        show (s.contents.set i _)[i]? = _
        exact List.getElem?_set_self hct
      · have hset : (coreResult s i o m sect i content hd).animations[i]? = none := by
          show (s.animations.set i _)[i]? = none
          exact List.getElem?_eq_none (by rw [List.length_set]; omega)
        rw [hset] at hi
        cases hi
    · have hset : (coreResult s t o m sect t content hd).animations[i]? =
          s.animations[i]? := by
        show (s.animations.set t _)[i]? = _
        exact List.getElem?_set_ne (fun hh' => hit hh'.symm)
      rw [hset] at hi
      obtain ⟨ha, hb, c0, hc0, hhid⟩ := hI i hh hi
      refine ⟨ha, hb, c0, ?_, hhid⟩
      show (s.contents.set t _)[i]? = _
      rw [List.getElem?_set_ne (fun hh' => hit hh'.symm)]
      exact hc0

theorem findHandle_mem {l : List (Option AnimHandle)} {g : Nat} {h : AnimHandle}
    (hf : findHandle l g = some h) : ∃ p : Nat, l[p]? = some (some h) := by
  induction l with
  | nil => simp [findHandle] at hf
  | cons x rest ih =>
    match x with
    | some hx =>
      rw [findHandle] at hf
      split at hf
      · cases hf
        exact ⟨0, by simp⟩
      · obtain ⟨p, hp⟩ := ih hf
        exact ⟨p + 1, by simpa using hp⟩
    | none =>
      rw [findHandle] at hf
      obtain ⟨p, hp⟩ := ih hf
      exact ⟨p + 1, by simpa using hp⟩

theorem good_clear_slot {s : AccordionState} {p : Nat} (hG : GoodState s) :
    GoodState { s with animations := s.animations.set p none } := by
  refine ⟨fun i tr htr => hG.1 i tr htr, ?_⟩
  intro i hh hi
  by_cases hip : i = p
  · subst hip
    have hproj : ({ s with animations := s.animations.set i none }).animations[i]? =
        (s.animations.set i none)[i]? := rfl
    rw [hproj] at hi
    rcases Nat.lt_or_ge i s.animations.length with hlt | hge
    · rw [List.getElem?_set_self hlt] at hi
      cases hi
    · rw [List.getElem?_eq_none (by rw [List.length_set]; omega)] at hi
      cases hi
  · have : ({ s with animations := s.animations.set p none }).animations[i]? =
        s.animations[i]? := List.getElem?_set_ne (fun hh' => hip hh'.symm)
    rw [this] at hi
    exact hG.2 i hh hi

theorem good_set_hidden {s : AccordionState} {p : Nat} {c : Content} {v : Option String}
    (hG : GoodState s) (hc : s.contents[p]? = some c)
    (hnolive : ∀ hh : AnimHandle, ¬ s.animations[p]? = some (some hh)) :
    GoodState { s with contents := s.contents.set p { c with hidden := v } } := by
  constructor
  · intro i tr htr
    obtain ⟨cid, hcid, hfiw⟩ := hG.1 i tr htr
    refine ⟨cid, hcid, ?_⟩
    show firstIdxWhere (fun cc => cc.id = cid) (s.contents.set p { c with hidden := v }) =
      some i
    rw [@fiw_set _ _ _ _ _ { c with hidden := v } _ hc Iff.rfl]
    exact hfiw
  · intro i hh hi
    obtain ⟨ha, hb, c0, hc0, hhid⟩ := hG.2 i hh hi
    refine ⟨ha, hb, ?_⟩
    by_cases hip : i = p
    · subst hip
      exact absurd hi (hnolive hh)
    · refine ⟨c0, ?_, hhid⟩
      have : ({ s with contents := s.contents.set p { c with hidden := v } }).contents[i]? =
          s.contents[i]? := List.getElem?_set_ne (fun hh' => hip hh'.symm)
      rw [this]
      exact hc0

theorem good_sections {s : AccordionState} (secs : List SectionEl) (hG : GoodState s) :
    GoodState { s with sections := secs } :=
  ⟨fun i tr h => hG.1 i tr h, fun i hh h => hG.2 i hh h⟩

theorem good_deliverFinish {s : AccordionState} (g : Nat) (hG : GoodState s) :
    GoodState (deliverFinish s g) := by
  by_cases hcanc : g ∈ s.canceledGens
  · rw [deliverFinish, if_pos hcanc]; exact hG
  rw [deliverFinish, if_neg hcanc]
  rcases hfh : findHandle s.animations g with _ | h
  · exact hG
  dsimp only
  obtain ⟨p, hp⟩ := findHandle_mem hfh
  obtain ⟨hidx, hcidx, c0, hc0, hhid⟩ := hG.2 p h hp
  have hG1 : GoodState { s with animations := s.animations.set h.idx none } :=
    good_clear_slot hG
  have hG2 : GoodState (if h.opening then { s with animations := s.animations.set h.idx none }
      else
        match ({ s with animations := s.animations.set h.idx none }).contents[h.contentIdx]? with
        | some c =>
          { ({ s with animations := s.animations.set h.idx none }) with
            contents :=
              ({ s with animations := s.animations.set h.idx none }).contents.set h.contentIdx
                { c with hidden := some "until-found" } }
        | none => { s with animations := s.animations.set h.idx none } ) := by
    split
    · exact hG1
    split
    · rename_i c hcc
      refine good_set_hidden hG1 hcc ?_
      intro hh hcontra
      rw [hcidx, hidx] at hcontra
      have hset : ({ s with animations := s.animations.set p none }).animations[p]? =
          (s.animations.set p none)[p]? := rfl
      rw [hset] at hcontra
      rcases Nat.lt_or_ge p s.animations.length with hlt | hge
      · rw [List.getElem?_set_self hlt] at hcontra
        cases hcontra
      · rw [List.getElem?_eq_none (by rw [List.length_set]; omega)] at hcontra
        cases hcontra
    · exact hG1
  split
  · exact good_sections _ hG2
  · exact hG2

theorem good_closeNR {s : AccordionState} {c : Nat} {s1 : AccordionState}
    (hG : GoodState s) (h : closeNR s c = some s1) : GoodState s1 := by
  rw [closeNR] at h
  split at h
  · rcases toggleBody_inv h with ⟨tr, _, _, rfl⟩ | ⟨tr, sg, h1, hgd, hgs, hcore⟩
    · exact hG
    · rcases groupStep_inv hgs with rfl | ⟨n, cc, _, _, _, ho, _, _⟩
      · exact good_toggleCore hG hcore
      · simp at ho
  · exact (Option.some_inj.mp h) ▸ hG

theorem good_toggle {s : AccordionState} {t : Nat} {o m : Bool} {s' : AccordionState}
    (hG : GoodState s) (h : toggle s t o m = some s') : GoodState s' := by
  rcases toggleBody_inv h with ⟨tr, _, _, rfl⟩ | ⟨tr, sg, h1, hgd, hgs, hcore⟩
  · exact hG
  · rcases groupStep_inv hgs with rfl | ⟨n, cc, _, _, _, _, _, hcl⟩
    · exact good_toggleCore hG hcore
    · exact good_toggleCore (good_closeNR hG hcl) hcore

theorem applyFlips_controls (ps : List (Nat × Bool)) (ts : List Trigger) (i : Nat) :
    ((ps.foldl applyFlip ts)[i]?).map Trigger.ariaControls =
      (ts[i]?).map Trigger.ariaControls := by
  induction ps generalizing ts with
  | nil => rfl
  | cons p ps ih =>
    rw [List.foldl_cons, ih]
    rw [applyFlip]
    rcases hp : ts[p.1]? with _ | tr
    · rfl
    · by_cases hip : i = p.1
      · subst hip
        rw [List.getElem?_set_self (List.getElem?_eq_some.mp hp).1, hp]
        rfl
      · rw [List.getElem?_set_ne (fun hh => hip hh.symm)]

theorem good_flushRaf {s : AccordionState} (hG : GoodState s) : GoodState (flushRaf s) := by
  constructor
  · intro i tr' htr'
    have hmap := applyFlips_controls s.pendingRaf s.triggers i
    have hflt : (flushRaf s).triggers[i]? = (s.pendingRaf.foldl applyFlip s.triggers)[i]? :=
      rfl
    rw [hflt] at htr'
    rw [htr'] at hmap
    rcases htri : s.triggers[i]? with _ | tr
    · rw [htri] at hmap; cases hmap
    rw [htri] at hmap
    simp only [Option.map_some'] at hmap
    obtain ⟨cid, hcid, hfiw⟩ := hG.1 i tr htri
    exact ⟨cid, by rw [Option.some_inj.mp hmap, hcid], hfiw⟩
  · exact fun i hh hi => hG.2 i hh hi

theorem good_handleTriggerClick {s : AccordionState} {t : Nat} {s' : AccordionState}
    (hG : GoodState s) (h : handleTriggerClick s t = some s') : GoodState s' := by
  rw [handleTriggerClick] at h
  rcases h1 : s.triggers[t]? with _ | tr
  · simp [h1] at h
  · simp only [h1, Option.bind_eq_bind, Option.some_bind] at h
    exact good_toggle hG h

theorem good_handleContentBeforeMatch {s : AccordionState} {c : Nat} {s' : AccordionState}
    (hG : GoodState s) (h : handleContentBeforeMatch s c = some s') : GoodState s' := by
  rw [handleContentBeforeMatch] at h
  rcases h1 : s.contents[c]? with _ | cont
  · simp [h1] at h
  simp only [h1, Option.bind_eq_bind, Option.some_bind] at h
  rcases h2 : firstIdxWhere (fun tr => tr.ariaControls = some cont.id) s.triggers with _ | t
  · simp [h2] at h
  simp only [h2, Option.some_bind] at h
  rcases h3 : s.triggers[t]? with _ | tr
  · simp [h3] at h
  simp only [h3, Option.some_bind] at h
  split at h
  · exact (Option.some_inj.mp h) ▸ hG
  · exact good_toggle hG h

theorem good_step {s s1 : AccordionState} {e : AccEvent}
    (hG : GoodState s) (h : step s e = some s1) : GoodState s1 := by
  cases e with
  | click t => exact good_handleTriggerClick hG h
  | keydown k a => exact (Option.some_inj.mp h) ▸ hG
  | beforematch c => exact good_handleContentBeforeMatch hG h
  | animFinish g => exact (Option.some_inj.mp h) ▸ good_deliverFinish g hG
  | raf => exact (Option.some_inj.mp h) ▸ good_flushRaf hG
  | openCall t =>
    rw [step, openT] at h
    split at h
    · exact good_toggle hG h
    · exact (Option.some_inj.mp h) ▸ hG
  | closeCall t =>
    rw [step, closeT] at h
    split at h
    · exact good_toggle hG h
    · exact (Option.some_inj.mp h) ▸ hG

theorem good_steps {s s' : AccordionState} {es : List AccEvent}
    (hG : GoodState s) (h : steps s es = some s') : GoodState s' := by
  induction es generalizing s with
  | nil => exact (Option.some_inj.mp h) ▸ hG
  | cons e es ih =>
    rw [steps, List.foldlM_cons] at h
    rcases hstep : step s e with _ | s1
    · rw [hstep] at h; simp at h
    · rw [hstep] at h
      simp only [Option.bind_eq_bind, Option.some_bind] at h
      exact ih (good_step hG hstep) h

/-- C10: constructing an `Accordion` with a null or undefined root returns
immediately without throwing: no settings are resolved, no element discovery
runs, no listeners are attached, no attributes are written, and the
resulting instance is degenerate with every field left uninitialized. -/
theorem c10_null_root_inert (opts : AccordionOptionsOverride) (reducedMotion : Bool)
    (rnd : Nat → String) :
    constructAccordion none opts reducedMotion rnd =
      some { rootElement := none, defaults := none, settings := none, state := none } :=
  rfl

/-- C8: if any of the four discovered element collections is empty,
`initialize` returns before any wiring: the state — element attributes,
listener flags, the `data-accordion-initialized` root marker — is returned
unchanged, and no error is raised (the instance silently becomes inert). -/
theorem c8_empty_collection_inert (rnd : Nat → String) (s : AccordionState)
    (h : s.sections = [] ∨ s.headers = [] ∨ s.triggers = [] ∨ s.contents = []) :
    initAccordion rnd s = some s := by
  have hc : s.sections.length = 0 ∨ s.headers.length = 0 ∨ s.triggers.length = 0 ∨
      s.contents.length = 0 := by
    rcases h with h | h | h | h <;> simp [h]
  rw [initAccordion, if_pos hc]

/-- Witness for C8 at a concrete empty instance. -/
theorem c8_witness : initAccordion (fun _ => "r4nd0m") fixEmpty = some fixEmpty :=
  c8_empty_collection_inert (fun _ => "r4nd0m") fixEmpty (Or.inl rfl)

/-- C5 (code bug): the claim says the modulo-based index computations of the
keyboard handler are guarded against a zero-length focusable list, so that
the handler is a no-op.  The code has no such guard: with zero focusable
triggers (all disabled) and a programmatically focused trigger, ArrowDown /
ArrowUp compute `(currentIndex ± 1) % 0`, which is `NaN` in JavaScript, and
Home / End index the empty list at `0` / `-1`; `focusables[newIndex]` is
`undefined` and `undefined.focus()` throws a `TypeError` (`jsError` in the
model) instead of returning. -/
theorem c5_empty_focusables_not_guarded :
    focusableIdxs fix1dis.triggers = [] ∧
    handleTriggerKeyDown fix1dis "ArrowDown" (some (DocElem.trig 0)) = KeyResult.jsError ∧
    handleTriggerKeyDown fix1dis "ArrowUp" (some (DocElem.trig 0)) = KeyResult.jsError ∧
    handleTriggerKeyDown fix1dis "Home" (some (DocElem.trig 0)) = KeyResult.jsError ∧
    handleTriggerKeyDown fix1dis "End" (some (DocElem.trig 0)) = KeyResult.jsError :=
  ⟨rfl, rfl, rfl, rfl, rfl⟩

/-- C3: the toggle no-op guard makes toggling idempotent.  (1) If the
requested `open` value (as a string) equals the trigger's current
`aria-expanded` value, `toggle` returns immediately with no state change.
(2) Hence calling `open` twice in succession on the same trigger produces
exactly one state transition: since the actual `aria-expanded` flip is
deferred to the next paint after the animation starts, the second call is a
no-op once that paint (`flushRaf`) has happened.  (3) `close` on an
already-closed trigger is a no-op. -/
theorem c3_toggle_idempotent :
    (∀ (s : AccordionState) (t : Nat) (o m : Bool) (tr : Trigger),
      s.triggers[t]? = some tr → tr.ariaExpanded = some (boolStr o) →
      toggle s t o m = some s) ∧
    (∀ (s s1 : AccordionState) (t : Nat), s.pendingRaf = [] →
      openT s t = some s1 → openT (flushRaf s1) t = some (flushRaf s1)) ∧
    (∀ (s : AccordionState) (t : Nat) (tr : Trigger),
      s.triggers[t]? = some tr → tr.ariaExpanded = some "false" →
      closeT s t = some s) := by
  refine ⟨?_, openT_twice_settled, ?_⟩
  · intro s t o m tr h1 hg
    exact toggleBody_guard h1 hg.symm
  · intro s t tr h1 hg
    rw [closeT]
    split
    · exact toggleBody_guard h1 (by rw [hg]; rfl)
    · rfl

/-- Witness for C3: at the concrete two-panel instance, opening the already
open trigger 0 is a no-op, closing the closed trigger 1 is a no-op, and a
second `open` of trigger 1 after the paint is a no-op. -/
theorem c3_witness :
    toggle fix2 0 true false = some fix2 ∧
    closeT fix2 1 = some fix2 ∧
    openT (flushRaf c3after) 1 = some (flushRaf c3after) :=
  ⟨c3_toggle_idempotent.1 fix2 0 true false trOpenA rfl rfl,
   c3_toggle_idempotent.2.2 fix2 1 trClosedB rfl rfl,
   c3_toggle_idempotent.2.1 fix2 c3after 1 rfl (by rfl)⟩

/-- C7: a `beforematch` reveal event on a hidden content element looks the
owning trigger up via the `aria-controls`/`id` relationship; if that trigger
is already expanded the handler is a no-op, otherwise the trigger is opened
through the same toggle machine with the `isMatch` flag set, so the stored
animation's duration resolves to `0` (an instantaneous state change). -/
theorem c7_beforematch_opens_instantly (s : AccordionState) (cI t : Nat)
    (content : Content) (tr : Trigger)
    (hc : s.contents[cI]? = some content)
    (hfind : firstIdxWhere (fun tr' => tr'.ariaControls = some content.id) s.triggers =
      some t)
    (htr : s.triggers[t]? = some tr) :
    (tr.ariaExpanded = some "true" → handleContentBeforeMatch s cI = some s) ∧
    (tr.ariaExpanded ≠ some "true" →
      handleContentBeforeMatch s cI = toggle s t true true ∧
      ∀ (s' : AccordionState) (h' : AnimHandle), toggle s t true true = some s' →
        s'.animations[t]? = some (some h') → h'.duration = 0 ∧ h'.opening = true) := by
  constructor
  · intro hexp
    rw [handleContentBeforeMatch]
    simp only [hc, Option.bind_eq_bind, Option.some_bind, hfind, htr]
    rw [if_pos hexp]
    rfl
  · intro hexp
    constructor
    · rw [handleContentBeforeMatch]
      simp only [hc, Option.bind_eq_bind, Option.some_bind, hfind, htr]
      rw [if_neg hexp]
    · intro s' h' htog hanim
      rcases toggleBody_inv htog with ⟨tr2, h1, hg, rfl⟩ | ⟨tr2, sg, h1, hg, hgs, hcore⟩
      · rw [htr] at h1
        cases Option.some_inj.mp h1
        exact absurd hg.symm hexp
      · obtain ⟨tr3, sect, cid, ci, cont3, hd, g1, g2, g3, g4, g5, g6, rfl⟩ :=
          toggleCore_inv hcore
        by_cases hlt : t < sg.animations.length
        · have hset : (coreResult sg t true true sect ci cont3 hd).animations[t]? =
              some (some (mkHandle sg t ci true true sect cont3 hd)) := by
            show (sg.animations.set t _)[t]? = _
            exact List.getElem?_set_self hlt
          rw [hset] at hanim
          obtain rfl : h' = mkHandle sg t ci true true sect cont3 hd := by
            simpa using hanim.symm
          exact ⟨rfl, rfl⟩
        · have hset : (coreResult sg t true true sect ci cont3 hd).animations[t]? =
              none := by
            show (sg.animations.set t _)[t]? = none
            exact List.getElem?_eq_none (by rw [List.length_set]; omega)
          rw [hset] at hanim
          cases hanim

/-- Witness for C7: at the two-panel instance, a reveal on the expanded
panel's content is a no-op, and a reveal on the collapsed panel's content
routes through `toggle(trigger, true, true)` whose stored animation has
duration 0. -/
theorem c7_witness :
    handleContentBeforeMatch fix2 0 = some fix2 ∧
    handleContentBeforeMatch fix2 1 = toggle fix2 1 true true ∧
    (∀ (s' : AccordionState) (h' : AnimHandle), toggle fix2 1 true true = some s' →
      s'.animations[1]? = some (some h') → h'.duration = 0 ∧ h'.opening = true) :=
  ⟨(c7_beforematch_opens_instantly fix2 0 0 contA trOpenA rfl rfl rfl).1 rfl,
   ((c7_beforematch_opens_instantly fix2 1 1 contB trClosedB rfl rfl rfl).2
     (by decide)).1,
   ((c7_beforematch_opens_instantly fix2 1 1 contB trClosedB rfl rfl rfl).2
     (by decide)).2⟩

/-- C6: keyboard roving focus over the focusable-filtered trigger list of
length `N = n + 1`: ArrowDown from the last focusable trigger wraps to the
first, ArrowUp from the first wraps to the last, Home and End land on the
first and last regardless of the current focus position, and any trigger
that receives roving focus is focusable — disabled triggers are skipped
entirely. -/
theorem c6_keyboard_roving_focus (s : AccordionState) (n a z : Nat)
    (hn : (focusableIdxs s.triggers).length = n + 1)
    (ha : (focusableIdxs s.triggers)[0]? = some a)
    (hz : (focusableIdxs s.triggers)[n]? = some z) :
    handleTriggerKeyDown s "ArrowDown" (some (DocElem.trig z)) = KeyResult.focusTo a ∧
    handleTriggerKeyDown s "ArrowUp" (some (DocElem.trig a)) = KeyResult.focusTo z ∧
    (∀ cur, handleTriggerKeyDown s "Home" (some cur) = KeyResult.focusTo a) ∧
    (∀ cur, handleTriggerKeyDown s "End" (some cur) = KeyResult.focusTo z) ∧
    (∀ (key : String) (active : Option DocElem) (j : Nat),
      handleTriggerKeyDown s key active = KeyResult.focusTo j →
      ∃ tr, s.triggers[j]? = some tr ∧ isFocusable tr = true) :=
  ⟨keydown_arrowDown_last s n a z hn ha hz,
   keydown_arrowUp_first s n a z hn ha hz,
   fun cur => keydown_home s a cur ha,
   fun cur => keydown_end s n z hn hz cur,
   fun _ _ _ h => mem_focusableIdxs (focusTo_mem h)⟩

/-- Witness for C6 at the three-panel instance whose middle trigger is
disabled: the focusable list is `[0, 2]`, and all four navigation keys
behave as stated. -/
theorem c6_witness :
    handleTriggerKeyDown fix3 "ArrowDown" (some (DocElem.trig 2)) = KeyResult.focusTo 0 ∧
    handleTriggerKeyDown fix3 "ArrowUp" (some (DocElem.trig 0)) = KeyResult.focusTo 2 ∧
    handleTriggerKeyDown fix3 "Home" (some DocElem.foreign) = KeyResult.focusTo 0 ∧
    handleTriggerKeyDown fix3 "End" (some (DocElem.trig 1)) = KeyResult.focusTo 2 := by
  obtain ⟨h1, h2, h3, h4, _⟩ := c6_keyboard_roving_focus fix3 1 0 2 rfl rfl rfl
  exact ⟨h1, h2, h3 DocElem.foreign, h4 (DocElem.trig 1)⟩

/-- C9 (implicit): an Enter or Space keydown activates the focused element
with `current.click()` without any focusability or membership check, so a
disabled (non-focusable) trigger that has been focused programmatically is
still activated: its click handler runs `toggle`, which stores an opening
animation for its panel and flips its `aria-expanded` to `"true"` at the
next paint — even though pointer interaction on it is disabled. -/
theorem c9_enter_space_activates_disabled (s : AccordionState) (i : Nat) (tr : Trigger)
    (htr : s.triggers[i]? = some tr)
    (hdis : isFocusable tr = false)
    (hexp : tr.ariaExpanded = some "false")
    (hWF : ∀ j, j < s.triggers.length → lookupsOk s j = true)
    (hlen : s.animations.length = s.triggers.length) :
    handleTriggerKeyDown s "Enter" (some (DocElem.trig i)) =
      KeyResult.activate (DocElem.trig i) ∧
    handleTriggerKeyDown s " " (some (DocElem.trig i)) =
      KeyResult.activate (DocElem.trig i) ∧
    ∃ (s' : AccordionState) (h' : AnimHandle),
      handleTriggerClick s i = some s' ∧
      s'.animations[i]? = some (some h') ∧ h'.opening = true ∧
      ∃ tr', (flushRaf s').triggers[i]? = some tr' ∧ tr'.ariaExpanded = some "true" := by
  refine ⟨keydown_activate s _ (Or.inl rfl), keydown_activate s _ (Or.inr rfl), ?_⟩
  have hg : some (boolStr true) ≠ tr.ariaExpanded := by
    rw [hexp]; simp [boolStr]
  obtain ⟨s', htog, hpres, ⟨h', hh', hop, hidx, hdur⟩, qs, hraf⟩ :=
    toggle_total true false htr hg hWF hlen
  refine ⟨s', h', ?_, hh', hop, ?_⟩
  · rw [handleTriggerClick]
    simp only [htr, Option.bind_eq_bind, Option.some_bind]
    have hdec : decide (tr.ariaExpanded = some "false") = true := by rw [hexp]; simp
    rw [hdec]
    exact htog
  · have hi : i < s.triggers.length := (List.getElem?_eq_some.mp htr).1
    have hfl : (flushRaf s').triggers =
        ((s.pendingRaf ++ qs) ++ [(i, true)]).foldl applyFlip s'.triggers := by
      show s'.pendingRaf.foldl applyFlip s'.triggers = _
      rw [hraf]
      congr 1
      simp
    obtain ⟨tr', hget, hexp'⟩ := applyFlips_last (s.pendingRaf ++ qs) s.triggers i true hi
    refine ⟨tr', ?_, hexp'⟩
    rw [hfl, hpres.1]
    exact hget

/-- Witness for C9: at the three-panel instance the disabled trigger 1 is
activated by Enter and its click handler starts an opening animation. -/
theorem c9_witness :
    handleTriggerKeyDown fix3 "Enter" (some (DocElem.trig 1)) =
      KeyResult.activate (DocElem.trig 1) ∧
    ∃ (s' : AccordionState) (h' : AnimHandle),
      handleTriggerClick fix3 1 = some s' ∧
      s'.animations[1]? = some (some h') ∧ h'.opening = true ∧
      ∃ tr', (flushRaf s').triggers[1]? = some tr' ∧ tr'.ariaExpanded = some "true" := by
  obtain ⟨h1, _, h3⟩ :=
    c9_enter_space_activates_disabled fix3 1 trDis rfl rfl rfl (by decide) rfl
  exact ⟨h1, h3⟩

/-- C2: starting a toggle that passes the no-op guard while an animation
handle is live at the trigger's index cancels that handle and replaces it:
afterwards the superseded handle's generation is in the cancelled set, the
slot holds exactly one new (not cancelled) handle, and the superseded
transition's finish side effects never apply — delivering its finish event
is a no-op, now and after any further event sequence. -/
theorem c2_cancel_replaces_handle (s : AccordionState) (t : Nat) (o m : Bool)
    (s' : AccordionState) (h0 : AnimHandle) (tr : Trigger)
    (htr : s.triggers[t]? = some tr)
    (hguard : some (boolStr o) ≠ tr.ariaExpanded)
    (hlive : s.animations[t]? = some (some h0))
    (hWFg : WFgen s)
    (htog : toggle s t o m = some s') :
    h0.gen ∈ s'.canceledGens ∧
    (∃ h', s'.animations[t]? = some (some h') ∧ h'.gen ≠ h0.gen ∧
      h'.gen ∉ s'.canceledGens) ∧
    deliverFinish s' h0.gen = s' ∧
    (∀ (es : List AccEvent) (s'' : AccordionState), steps s' es = some s'' →
      deliverFinish s'' h0.gen = s'') := by
  rcases toggleBody_inv htog with ⟨tr2, h1, hg, rfl⟩ | ⟨tr2, sg, h1, hg, hgs, hcore⟩
  · rw [htr] at h1
    cases Option.some_inj.mp h1
    exact absurd hg hguard
  rw [htr] at h1
  cases Option.some_inj.mp h1
  have hsg_anim : sg.animations[t]? = some (some h0) := by
    rcases groupStep_inv hgs with rfl | ⟨n, c, _, _, _, _, hct, hcl⟩
    · exact hlive
    · rw [anims_get_closeNR hcl (fun hh => hct hh.symm)]
      exact hlive
  have hWFg_sg : WFgen sg := by
    rcases groupStep_inv hgs with rfl | ⟨n, c, _, _, _, _, _, hcl⟩
    · exact hWFg
    · exact WFgen_closeNR hWFg hcl
  have hgen_mono : s.nextGen ≤ sg.nextGen :=
    (groupStepNR_pres hgs).2.2.2.2.2.2.2.2
  obtain ⟨tr3, sect, cid, ci, cont, hd, g1, g2, g3, g4, g5, g6, rfl⟩ := toggleCore_inv hcore
  have htlt : t < sg.animations.length := (List.getElem?_eq_some.mp hsg_anim).1
  have hcanc : (coreResult sg t o m sect ci cont hd).canceledGens =
      h0.gen :: sg.canceledGens := by
    show (match sg.animations[t]? with
      | some (some a) => a.gen :: sg.canceledGens
      | _ => sg.canceledGens) = _
    rw [hsg_anim]
  have hmem : h0.gen ∈ (coreResult sg t o m sect ci cont hd).canceledGens := by
    rw [hcanc]
    exact List.mem_cons_self _ _
  have hnew : (coreResult sg t o m sect ci cont hd).animations[t]? =
      some (some (mkHandle sg t ci o m sect cont hd)) := by
    show (sg.animations.set t _)[t]? = _
    exact List.getElem?_set_self htlt
  have hgenlt : h0.gen < sg.nextGen :=
    lt_of_lt_of_le (hWFg.1 t h0 hlive) hgen_mono
  refine ⟨hmem, ⟨mkHandle sg t ci o m sect cont hd, hnew, ?_, ?_⟩, ?_, ?_⟩
  · exact (Nat.ne_of_lt hgenlt).symm
  · rw [hcanc]
    intro hin
    rcases List.mem_cons.mp hin with heq | hin
    · exact absurd heq (Nat.ne_of_lt hgenlt).symm
    · exact absurd (hWFg_sg.2 _ hin) (lt_irrefl _)
  · rw [deliverFinish, if_pos hmem]
  · intro es s'' hsteps
    rw [deliverFinish, if_pos (steps_canceled_mono hsteps hmem)]

/-- Witness for C2: the in-flight handle is cancelled by the reverse toggle
and its finish event is suppressed. -/
theorem c2_witness :
    hLive.gen ∈ c2after.canceledGens ∧ deliverFinish c2after hLive.gen = c2after := by
  have hwf : WFgen fix2Live := by
    constructor
    · intro i hh hi
      match i with
      | 0 => simp [fix2Live, fix2] at hi
      | 1 =>
        rw [show fix2Live.animations[1]? = some (some hLive) from rfl] at hi
        obtain rfl : hh = hLive := by simpa using hi.symm
        decide
      | n + 2 => simp [fix2Live, fix2] at hi
    · intro g hg
      simp [fix2Live, fix2] at hg
  obtain ⟨h1, _, h3, _⟩ :=
    c2_cancel_replaces_handle fix2Live 1 true false c2after hLive trClosedB rfl
      (by decide) rfl hwf (by rfl)
  exact ⟨h1, h3⟩

/-- C1 (amended): for `toggle(trigger, open := true, isMatch)` on a trigger
with non-empty group key `n`, the first trigger in the document currently
expanded with the same group key (if any, and distinct from this trigger) is
recursively closed first, but with the default `isMatch = false` — the
caller's `isMatch` flag is NOT propagated, so the recursive close animates
with the configured duration (`settings.animation.duration`) regardless of
`m`.  After the animation-frame flip settles, at most one trigger of the
group is expanded: every expanded trigger with group key `n` is the toggled
one. -/
theorem c1_group_exclusion_amended (s : AccordionState) (t : Nat) (m : Bool)
    (tr : Trigger) (n : String)
    (htr : s.triggers[t]? = some tr)
    (hname : tr.dataName = some n) (hne : n ≠ "")
    (hnotexp : tr.ariaExpanded ≠ some "true")
    (hraf : s.pendingRaf = [])
    (hlen : s.animations.length = s.triggers.length)
    (hWF : ∀ j, j < s.triggers.length → lookupsOk s j = true)
    (hinv : GroupInv s n) :
    ∃ s1, toggle s t true m = some s1 ∧
      (∀ (j : Nat) (trj : Trigger), (flushRaf s1).triggers[j]? = some trj →
        trj.dataName = some n → trj.ariaExpanded = some "true" → j = t) ∧
      (∀ c : Nat, querySelectorExpandedName s.triggers n = some c →
        ∃ hC : AnimHandle, s1.animations[c]? = some (some hC) ∧ hC.opening = false ∧
          hC.duration = s.settings.animation.duration) := by
  have ht : t < s.triggers.length := (List.getElem?_eq_some.mp htr).1
  obtain ⟨sect, hd, cid, ci, cont, hsect, hhd, hcid, hfiw, hcont⟩ :=
    lookupsOk_spec (hWF t ht) htr
  have hguard : ¬ (some (boolStr true) = tr.ariaExpanded) := fun hh => hnotexp hh.symm
  rcases hq : querySelectorExpandedName s.triggers n with _ | c
  · -- no other expanded member: no recursive close
    have hcore := toggleCore_eval true m htr hsect hcid hfiw hcont hhd
    have htog : toggle s t true m = some (coreResult s t true m sect ci cont hd) := by
      rw [toggle, toggleBody]
      simp only [htr, Option.bind_eq_bind, Option.some_bind]
      rw [if_neg hguard, groupStep, hname]
      dsimp only
      rw [if_neg hne, hq]
      simp only [Option.some_bind]
      exact hcore
    refine ⟨_, htog, ?_, ?_⟩
    · intro j trj hj hdn hde
      have hpr : (coreResult s t true m sect ci cont hd).pendingRaf = [(t, true)] := by
        show s.pendingRaf ++ [(t, true)] = _
        rw [hraf]
        rfl
      have hfl : (flushRaf (coreResult s t true m sect ci cont hd)).triggers =
          applyFlip s.triggers (t, true) := by
        show (coreResult s t true m sect ci cont hd).pendingRaf.foldl applyFlip
          (coreResult s t true m sect ci cont hd).triggers = _
        rw [hpr]
        rfl
      by_cases hjt : j = t
      · exact hjt
      · exfalso
        rw [hfl, applyFlip_get_ne _ _ hjt] at hj
        exact fiw_none hq j trj hj ⟨hde, hdn⟩
    · intro c hqc
      exact Option.noConfusion hqc
  · -- an expanded member exists: it is closed first, with isMatch = false
    obtain ⟨trc, htrc, hptrc⟩ := fiw_spec hq
    have hct : c ≠ t := by
      rintro rfl
      rw [htr] at htrc
      cases Option.some_inj.mp htrc
      exact hnotexp hptrc.1
    have hcl : c < s.triggers.length := fiw_lt_length hq
    obtain ⟨sectC, ciC, contC, hdC, hsectC, hfiwC, hcontC, hhdC, hclose⟩ :=
      closeNR_total htrc hptrc.1 (hWF c hcl)
    -- transported lookups at t over the close result
    have htr' : (coreResult s c false false sectC ciC contC hdC).triggers[t]? = some tr :=
      htr
    have hsect' : (coreResult s c false false sectC ciC contC hdC).sections[t]? =
        some sect := by
      show (s.sections.set c _)[t]? = _
      rw [List.getElem?_set_ne hct]
      exact hsect
    have hhd' : (coreResult s c false false sectC ciC contC hdC).headers[t]? = some hd :=
      hhd
    have hfiw' : firstIdxWhere (fun cc => cc.id = cid)
        (coreResult s c false false sectC ciC contC hdC).contents = some ci := by
      show firstIdxWhere _ (s.contents.set ciC { contC with hidden := none }) = _
      rw [@fiw_set _ _ _ _ _ { contC with hidden := none } _ hcontC Iff.rfl]
      exact hfiw
    have hcont' : ∃ cont',
        (coreResult s c false false sectC ciC contC hdC).contents[ci]? = some cont' := by
      by_cases hcc : ci = ciC
      · subst hcc
        refine ⟨{ contC with hidden := none }, ?_⟩
        show (s.contents.set ci _)[ci]? = _
        exact List.getElem?_set_self (List.getElem?_eq_some.mp hcontC).1
      · refine ⟨cont, ?_⟩
        show (s.contents.set ciC _)[ci]? = _
        rw [List.getElem?_set_ne (fun hh => hcc hh.symm)]
        exact hcont
    obtain ⟨cont', hcont'⟩ := hcont'
    have hcore := toggleCore_eval true m htr' hsect' hcid hfiw' hcont' hhd'
    have htog : toggle s t true m = some (coreResult
        (coreResult s c false false sectC ciC contC hdC) t true m sect ci cont' hd) := by
      rw [toggle, toggleBody]
      simp only [htr, Option.bind_eq_bind, Option.some_bind]
      rw [if_neg hguard, groupStep, hname]
      dsimp only
      rw [if_neg hne, hq]
      dsimp only
      rw [if_pos ⟨rfl, hct⟩, hclose]
      simp only [Option.some_bind]
      exact hcore
    refine ⟨_, htog, ?_, ?_⟩
    · intro j trj hj hdn hde
      have hpr1 : (coreResult s c false false sectC ciC contC hdC).pendingRaf =
          [(c, false)] := by
        show s.pendingRaf ++ [(c, false)] = _
        rw [hraf]
        rfl
      have hpr : (coreResult (coreResult s c false false sectC ciC contC hdC) t true m
          sect ci cont' hd).pendingRaf = [(c, false), (t, true)] := by
        show (coreResult s c false false sectC ciC contC hdC).pendingRaf ++ [(t, true)] = _
        rw [hpr1]
        rfl
      have hfl : (flushRaf (coreResult (coreResult s c false false sectC ciC contC hdC)
          t true m sect ci cont' hd)).triggers =
          applyFlip (applyFlip s.triggers (c, false)) (t, true) := by
        show (coreResult (coreResult s c false false sectC ciC contC hdC) t true m
          sect ci cont' hd).pendingRaf.foldl applyFlip _ = _
        rw [hpr]
        rfl
      by_cases hjt : j = t
      · exact hjt
      exfalso
      rw [hfl, applyFlip_get_ne _ _ hjt] at hj
      by_cases hjc : j = c
      · subst hjc
        rw [applyFlip_get_self false htrc] at hj
        cases Option.some_inj.mp hj
        simp [boolStr] at hde
      · rw [applyFlip_get_ne _ _ hjc] at hj
        exact hjc (hinv j c trj trc hj htrc hdn hde hptrc.2 hptrc.1)
    · intro c' hqc
      obtain rfl : c = c' := Option.some_inj.mp hqc
      have hclt : c < s.animations.length := by rw [hlen]; exact hcl
      have hanimc : (coreResult (coreResult s c false false sectC ciC contC hdC) t true m
          sect ci cont' hd).animations[c]? =
          some (some (mkHandle s c ciC false false sectC contC hdC)) := by
        show ((s.animations.set c
          (some (mkHandle s c ciC false false sectC contC hdC))).set t _)[c]? = _
        rw [List.getElem?_set_ne (fun hh => hct hh.symm)]
        exact List.getElem?_set_self hclt
      exact ⟨mkHandle s c ciC false false sectC contC hdC, hanimc, rfl, rfl⟩

/-- C1 counterexample: the claim as stated — the recursive group close gets
the caller's `isMatch` flag, so a close triggered by a match reveal
(`toggle(trigger, true, isMatch := true)`) would animate with duration 0 —
is false at this concrete input: the code calls `this.close(current)`,
which invokes `toggle(current, false)` with the default `match = false`, so
in `fix2` (trigger 0 expanded, same group `"g"`, configured duration 300)
the recursive close's stored animation has duration 300, not 0. -/
theorem c1_match_not_propagated_counterexample :
    ¬ (∀ (s1 : AccordionState) (hC : AnimHandle),
        toggle fix2 1 true true = some s1 →
        s1.animations[0]? = some (some hC) → hC.duration = 0) := by
  intro hclaim
  have h300 : (c1after.animations[0]?).map (Option.map AnimHandle.duration) =
      some (some 300) := by rfl
  rcases hx : c1after.animations[0]? with _ | oh
  · rw [hx] at h300
    cases h300
  rcases oh with _ | hC
  · rw [hx] at h300
    simp at h300
  have h0 := hclaim c1after hC (by rfl) hx
  rw [hx] at h300
  simp only [Option.map_some'] at h300
  rw [h0] at h300
  simp at h300

/-- Witness for the amended C1 at the two-panel group instance: the
match-reveal open of trigger 1 closes trigger 0 first (with the configured
300 ms duration), and after the paint only trigger 1 is expanded in group
`"g"`. -/
theorem c1_witness :
    ∃ s1, toggle fix2 1 true true = some s1 ∧
      (∀ (j : Nat) (trj : Trigger), (flushRaf s1).triggers[j]? = some trj →
        trj.dataName = some "g" → trj.ariaExpanded = some "true" → j = 1) ∧
      (∀ c : Nat, querySelectorExpandedName fix2.triggers "g" = some c →
        ∃ hC : AnimHandle, s1.animations[c]? = some (some hC) ∧ hC.opening = false ∧
          hC.duration = fix2.settings.animation.duration) := by
  refine c1_group_exclusion_amended fix2 1 true trClosedB "g" rfl rfl (by decide)
    (by decide) rfl rfl (by decide) ?_
  intro i j tri trj hi hj hdi hei hdj hej
  match i, j with
  | 0, 0 => rfl
  | 0, 1 =>
    have hval : fix2.triggers[1]? = some trClosedB := rfl
    rw [hval] at hj
    obtain rfl : trClosedB = trj := Option.some_inj.mp hj
    exact absurd hej (by decide)
  | 1, _ =>
    have hval : fix2.triggers[1]? = some trClosedB := rfl
    rw [hval] at hi
    obtain rfl : trClosedB = tri := Option.some_inj.mp hi
    exact absurd hei (by decide)
  | 0, jj + 2 =>
    simp [fix2] at hj
  | ii + 2, _ =>
    simp [fix2] at hi

/-- C4: the content's `hidden` attribute is cleared before any transition's
animation starts and is set (to `"until-found"`) only inside the finish
handler of a closing transition.  Consequently, from any well-formed state
(`GoodState`: wiring alignment plus the per-index handle invariant), after
any sequence of events, a panel with an in-flight animation handle always
has its content rendered (`hidden` absent).  Moreover the finish of an
opening transition never touches any content's hidden state, and the finish
of a non-cancelled closing transition sets exactly its content's hidden
state to `"until-found"`. -/
theorem c4_content_unhidden_in_flight (s0 : AccordionState) (es : List AccEvent)
    (s' : AccordionState) (hG : GoodState s0) (hsteps : steps s0 es = some s') :
    (∀ (i : Nat) (h : AnimHandle), s'.animations[i]? = some (some h) →
      ∃ c, s'.contents[i]? = some c ∧ c.hidden = none) ∧
    (∀ (g : Nat) (h : AnimHandle), g ∉ s'.canceledGens →
      findHandle s'.animations g = some h → h.opening = true →
      (deliverFinish s' g).contents = s'.contents) ∧
    (∀ (g : Nat) (h : AnimHandle) (c : Content), g ∉ s'.canceledGens →
      findHandle s'.animations g = some h → h.opening = false →
      s'.contents[h.contentIdx]? = some c →
      ∃ c', (deliverFinish s' g).contents[h.contentIdx]? = some c' ∧
        c'.hidden = some "until-found") := by
  refine ⟨?_, ?_, ?_⟩
  · intro i h hi
    obtain ⟨_, _, c, hc, hhid⟩ := (good_steps hG hsteps).2 i h hi
    exact ⟨c, hc, hhid⟩
  · intro g h hg hfind hop
    rw [deliverFinish, if_neg hg, hfind]
    dsimp only
    rw [if_pos hop]
    split
    · rfl
    · rfl
  · intro g h c hg hfind hop hc
    rw [deliverFinish, if_neg hg, hfind]
    dsimp only
    rw [if_neg (by rw [hop]; exact Bool.false_ne_true)]
    have hlt : h.contentIdx < s'.contents.length := (List.getElem?_eq_some.mp hc).1
    have hc1 : ({ s' with animations := s'.animations.set h.idx none
        }).contents[h.contentIdx]? = some c := hc
    rw [hc1]
    split
    · refine ⟨{ c with hidden := some "until-found" }, ?_, rfl⟩
      show ((s'.contents.set h.contentIdx { c with hidden := some "until-found" }))[h.contentIdx]? = _
      exact List.getElem?_set_self hlt
    · refine ⟨{ c with hidden := some "until-found" }, ?_, rfl⟩
      show ((s'.contents.set h.contentIdx { c with hidden := some "until-found" }))[h.contentIdx]? = _
      exact List.getElem?_set_self hlt

/-- Witness for C4: the two-panel instance is well-formed, and after the
`open(trigger 1)` event the panel whose animation is in flight at index 1
has its content unhidden. -/
theorem c4_witness :
    c4after.animations[1]? = some (some
      { gen := 1, idx := 1, contentIdx := 1, opening := true, fromSize := 80,
        toSize := 80, duration := 300, easing := "ease" }) ∧
    ∃ c, c4after.contents[1]? = some c ∧ c.hidden = none := by
  have hG : GoodState fix2 := by
    constructor
    · intro i tr hi
      match i with
      | 0 =>
        have hval : fix2.triggers[0]? = some trOpenA := rfl
        rw [hval] at hi
        obtain rfl : trOpenA = tr := Option.some_inj.mp hi
        exact ⟨"c0", rfl, by decide⟩
      | 1 =>
        have hval : fix2.triggers[1]? = some trClosedB := rfl
        rw [hval] at hi
        obtain rfl : trClosedB = tr := Option.some_inj.mp hi
        exact ⟨"c1", rfl, by decide⟩
      | n + 2 => simp [fix2] at hi
    · intro i hh hi
      match i with
      | 0 => simp [fix2] at hi
      | 1 => simp [fix2] at hi
      | n + 2 => simp [fix2] at hi
  refine ⟨by rfl, ?_⟩
  exact (c4_content_unhidden_in_flight fix2 [AccEvent.openCall 1] c4after hG (by rfl)).1
    1 _ (by rfl)

